import Mathlib

/-!
Verification of the ESP32 simulator core (PinManager, ArduinoParser, Engine)
against its natural-language specification.  The JavaScript sources are
shallowly embedded: JS numbers are modelled as rationals (all computations in
the verified claims are exact, so no float rounding is involved), JS strings
as Lean strings, JS objects used as keyed tables as association lists or
functions to `Option`, and the cooperative async control flow as explicit
state passing / discrete-event traces.
-/

namespace ESP32Sim

/-! ### Exact rational numbers with kernel-computable arithmetic

JS numbers are IEEE floats; every computation in the verified claims is
exact small-integer arithmetic, so an exact rational type is a faithful
model.  The standard `Q` is not used because its arithmetic does not
reduce inside the kernel; `Q` below is a plain structure kept normalised
(coprime, positive denominator) by its smart constructor, so that equality
is structural and every operation evaluates by reduction. -/

/-- Structural Euclidean gcd with explicit fuel (`fuel ≥ m + 1` suffices
because the first argument strictly decreases). -/
def natGcdAux : Nat → Nat → Nat → Nat
  | 0, _, n => n
  | fuel + 1, m, n => if m = 0 then n else natGcdAux fuel (n % m) m

/-- Greatest common divisor, kernel-computable. -/
def natGcd (m n : Nat) : Nat := natGcdAux (m + 2) m n

/-- An exact rational: numerator and denominator-minus-one (so the
denominator `dm1 + 1` is positive by construction).  Values built by the
operations below are always in lowest terms, making structural equality
coincide with rational equality on every value the interpreter produces. -/
structure Q where
  n : Int
  dm1 : Nat
deriving DecidableEq

/-- The (always positive) denominator. -/
def Q.den (q : Q) : Nat := q.dm1 + 1

/-- Embed an integer. -/
def Q.ofInt (i : Int) : Q := ⟨i, 0⟩

/-- Embed a natural number. -/
def Q.ofNat (m : Nat) : Q := ⟨Int.ofNat m, 0⟩

instance (m : Nat) : OfNat Q m := ⟨Q.ofNat m⟩

/-- Normalised rational `num / d` (callers ensure `d > 0`; `d = 0` maps to
0 and never arises). -/
def Q.norm (num : Int) (d : Nat) : Q :=
  if d = 0 then ⟨0, 0⟩
  else
    let g := natGcd num.natAbs d
    ⟨num / (g : Int), d / g - 1⟩

/-- Addition. -/
def Q.add (a b : Q) : Q := Q.norm (a.n * (b.den : Int) + b.n * (a.den : Int)) (a.den * b.den)

instance : Add Q := ⟨Q.add⟩

/-- Subtraction. -/
def Q.sub (a b : Q) : Q := Q.norm (a.n * (b.den : Int) - b.n * (a.den : Int)) (a.den * b.den)

instance : Sub Q := ⟨Q.sub⟩

/-- Negation (normalisation is preserved). -/
def Q.neg (a : Q) : Q := ⟨-a.n, a.dm1⟩

instance : Neg Q := ⟨Q.neg⟩

/-- Multiplication. -/
def Q.mul (a b : Q) : Q := Q.norm (a.n * b.n) (a.den * b.den)

instance : Mul Q := ⟨Q.mul⟩

/-- Division; a zero divisor yields 0 (callers guard it, mirroring the
explicit zero-divisor notes at the JS call sites). -/
def Q.div (a b : Q) : Q :=
  if b.n = 0 then ⟨0, 0⟩
  else
    let sign : Int := if b.n < 0 then -1 else 1
    Q.norm (sign * a.n * (b.den : Int)) (a.den * b.n.natAbs)

instance : Div Q := ⟨Q.div⟩

/-- Strict order by cross multiplication (denominators are positive). -/
def Q.blt (a b : Q) : Bool := decide (a.n * (b.den : Int) < b.n * (a.den : Int))

/-- Non-strict order. -/
def Q.ble (a b : Q) : Bool := decide (a.n * (b.den : Int) ≤ b.n * (a.den : Int))

instance : LT Q := ⟨fun a b => Q.blt a b = true⟩

instance : LE Q := ⟨fun a b => Q.ble a b = true⟩

instance (a b : Q) : Decidable (a < b) := inferInstanceAs (Decidable (_ = true))

instance (a b : Q) : Decidable (a ≤ b) := inferInstanceAs (Decidable (_ = true))

/-- JS `Math.max` on two numbers (NaN aside). -/
def Q.max (a b : Q) : Q := if Q.blt a b then b else a

/-- JS `Math.min`. -/
def Q.min (a b : Q) : Q := if Q.blt b a then b else a

/-- Floor to an integer. -/
def Q.floor (q : Q) : Int := Int.fdiv q.n (q.den : Int)

/-- Truncation toward zero. -/
def Q.trunc (q : Q) : Int :=
  if 0 ≤ q.n then Int.ofNat (q.n.natAbs / q.den) else -Int.ofNat (q.n.natAbs / q.den)

/-- Absolute value (normalisation is preserved). -/
def Q.abs (q : Q) : Q := ⟨Int.ofNat q.n.natAbs, q.dm1⟩

/-- Powers of ten, kernel-computable. -/
def intPow10 : Nat → Int
  | 0 => 1
  | k + 1 => 10 * intPow10 k

/-- Runtime value of the interpreter: a JS number (modelled as a rational) or
a JS string.  `ArduinoParser.evaluateExpr` returns numbers or strings. -/
inductive Value where
  | num (q : Q)
  | str (s : String)
deriving DecidableEq

/-- JS truthiness on the values the simulator produces: a number is truthy
iff nonzero, a string iff nonempty (NaN never arises in the verified runs). -/
def Value.truthy : Value → Bool
  | .num q => q != 0
  | .str s => s != ""

/-- Embedding of one pin record created by `PinManager.initPins`
(PinManager.js lines 17-33).  The three power-rail records in the source lack
the `analogValue`/`pwmValue`/`isADC`/`isDAC` fields (JS `undefined`); reads of
those fields coerce to 0/false, which is what initialising them to 0/false
models. -/
structure Pin where
  id : Value
  mode : String
  value : Q
  analogValue : Q
  pwmValue : Q
  isADC : Bool
  isDAC : Bool
  connected : Option (Value × String)
deriving DecidableEq

/-- The ESP32 GPIO numbers from `initPins` (PinManager.js line 13). -/
def gpios : List Nat :=
  [0, 1, 2, 3, 4, 5, 12, 13, 14, 15, 16, 17, 18, 19, 21, 22, 23,
   25, 26, 27, 32, 33, 34, 35, 36, 39]

/-- The ADC-capable pins (PinManager.js line 14). -/
def adcPins : List Nat := [32, 33, 34, 35, 36, 39, 25, 26, 27, 14, 12, 13, 4, 0, 2, 15]

/-- The DAC-capable pins (PinManager.js line 15). -/
def dacPins : List Nat := [25, 26]

/-- Initial record of GPIO pin `n` (PinManager.js lines 18-27). -/
def gpioPin (n : Nat) : Pin :=
  { id := .num (Q.ofNat n)
    mode := "INPUT"
    value := 0
    analogValue := 0
    pwmValue := 0
    isADC := adcPins.contains n
    isDAC := dacPins.contains n
    connected := none }

/-- Initial record of a power-rail pin (PinManager.js lines 31-33):
mode `POWER`, value 1 for 3V3 and VIN, 0 for GND. -/
def railPin (name : String) (v : Q) : Pin :=
  { id := .str name
    mode := "POWER"
    value := v
    analogValue := 0
    pwmValue := 0
    isADC := false
    isDAC := false
    connected := none }

/-- The pin table built by `initPins`, keyed by the JS property key (GPIO
numbers become their decimal strings, rails keep their names). -/
def initPins : String → Option Pin := fun k =>
  match gpios.find? (fun n => toString n == k) with
  | some n => some (gpioPin n)
  | none =>
      if k = "3V3" then some (railPin "3V3" 1)
      else if k = "GND" then some (railPin "GND" 0)
      else if k = "VIN" then some (railPin "VIN" 1)
      else none

/-- State of the `PinManager`: the pin table.  Subscriber callbacks are
modelled by returning, from each operation, the list of pin keys passed to
`notify` (each listener is invoked once per such key, PinManager.js
lines 94-98). -/
structure PinManager where
  pins : String → Option Pin

/-- The freshly constructed `PinManager` (constructor calls `initPins`). -/
def PinManager.init : PinManager := ⟨initPins⟩

/-- Functional update of the pin table at one key. -/
def PinManager.setPin (pm : PinManager) (k : String) (p : Pin) : PinManager :=
  ⟨fun k' => if k' = k then some p else pm.pins k'⟩

/-- Embedding of `pinMode` (PinManager.js lines 36-41): update the mode and
notify if the pin exists, otherwise do nothing. -/
def PinManager.pinMode (pm : PinManager) (k : String) (mode : String) :
    PinManager × List String :=
  match pm.pins k with
  | some p => (pm.setPin k { p with mode := mode }, [k])
  | none => (pm, [])

/-- Embedding of `digitalWrite` (PinManager.js lines 43-48): store the
truthiness of the argument as 0/1 and notify, if the pin exists. -/
def PinManager.digitalWrite (pm : PinManager) (k : String) (v : Value) :
    PinManager × List String :=
  match pm.pins k with
  | some p => (pm.setPin k { p with value := if v.truthy then 1 else 0 }, [k])
  | none => (pm, [])

/-- Embedding of `digitalRead` (PinManager.js lines 50-55). -/
def PinManager.digitalRead (pm : PinManager) (k : String) : Q :=
  match pm.pins k with
  | some p => p.value
  | none => 0

/-- Embedding of `analogRead` (PinManager.js lines 57-62); the source's
`analogValue || 0` is the identity here because `analogValue` is a number
initialised to 0 in the model. -/
def PinManager.analogRead (pm : PinManager) (k : String) : Q :=
  match pm.pins k with
  | some p => p.analogValue
  | none => 0

/-- Embedding of `analogWrite` (PinManager.js lines 64-70): clamp the duty to
[0,255] into `pwmValue`, set `value` to 1 iff the raw argument is positive,
and notify, if the pin exists. -/
def PinManager.analogWrite (pm : PinManager) (k : String) (v : Q) :
    PinManager × List String :=
  match pm.pins k with
  | some p =>
      (pm.setPin k
        { p with pwmValue := Q.max 0 (Q.min 255 v), value := if Q.blt 0 v then 1 else 0 }, [k])
  | none => (pm, [])

/-- Embedding of `setAnalogValue` (PinManager.js lines 72-76): clamp to
[0,4095]; the source fires no notification here. -/
def PinManager.setAnalogValue (pm : PinManager) (k : String) (v : Q) :
    PinManager × List String :=
  match pm.pins k with
  | some p => (pm.setPin k { p with analogValue := Q.max 0 (Q.min 4095 v) }, [])
  | none => (pm, [])

/-- Embedding of `connectPin` (PinManager.js lines 78-82): bookkeeping only,
no notification. -/
def PinManager.connectPin (pm : PinManager) (k : String) (cid : Value)
    (pname : String) : PinManager × List String :=
  match pm.pins k with
  | some p => (pm.setPin k { p with connected := some (cid, pname) }, [])
  | none => (pm, [])

/-- Embedding of `disconnectPin` (PinManager.js lines 84-88). -/
def PinManager.disconnectPin (pm : PinManager) (k : String) :
    PinManager × List String :=
  match pm.pins k with
  | some p => (pm.setPin k { p with connected := none }, [])
  | none => (pm, [])

/-- One `PinManager` operation, for quantifying over operation sequences. -/
inductive PMOp where
  | pinMode (k : String) (mode : String)
  | digitalWrite (k : String) (v : Value)
  | analogWrite (k : String) (v : Q)
  | setAnalogValue (k : String) (v : Q)
  | connectPin (k : String) (cid : Value) (pname : String)
  | disconnectPin (k : String)

/-- The pin key an operation targets. -/
def PMOp.key : PMOp → String
  | .pinMode k _ => k
  | .digitalWrite k _ => k
  | .analogWrite k _ => k
  | .setAnalogValue k _ => k
  | .connectPin k _ _ => k
  | .disconnectPin k => k

/-- Apply one operation. -/
def PinManager.applyOp (pm : PinManager) : PMOp → PinManager × List String
  | .pinMode k m => pm.pinMode k m
  | .digitalWrite k v => pm.digitalWrite k v
  | .analogWrite k v => pm.analogWrite k v
  | .setAnalogValue k v => pm.setAnalogValue k v
  | .connectPin k cid pname => pm.connectPin k cid pname
  | .disconnectPin k => pm.disconnectPin k

/-- Apply a sequence of operations, discarding notifications. -/
def PinManager.applyOps (pm : PinManager) : List PMOp → PinManager
  | [] => pm
  | op :: ops => ((pm.applyOp op).1).applyOps ops

/-- The three power-rail keys. -/
def railKeys : List String := ["3V3", "GND", "VIN"]

/-- An operation that never mutates a power-rail pin's mode or value: either
a pure bookkeeping operation (`connectPin`/`disconnectPin`) or any operation
whose pin argument is not a rail key. -/
def PMOp.sparesRails : PMOp → Prop
  | .connectPin _ _ _ => True
  | .disconnectPin _ => True
  | op => op.key ∉ railKeys

/-! ### JS value and string helpers for the interpreter embedding -/

/-- Character class `\w` of JS regexes: ASCII letters, digits, underscore. -/
def isWordChar (c : Char) : Bool :=
  ('a' ≤ c && c ≤ 'z') || ('A' ≤ c && c ≤ 'Z') || ('0' ≤ c && c ≤ '9') || c = '_'

/-- Drop leading whitespace characters (regex `\s*`). -/
def dropWs : List Char → List Char
  | [] => []
  | c :: cs => if c.isWhitespace then dropWs cs else c :: cs

/-- Decimal digits of a natural number, most significant first. -/
def natDigits (fuel n : Nat) : List Char :=
  match fuel with
  | 0 => []
  | fuel + 1 =>
      if n < 10 then [Char.ofNat (48 + n)]
      else natDigits fuel (n / 10) ++ [Char.ofNat (48 + n % 10)]

/-- Decimal string of a natural number. -/
def natToStr (n : Nat) : String := String.mk (natDigits (n + 1) n)

/-- Decimal string of an integer, with a leading minus sign when negative. -/
def intToStr (i : Int) : String :=
  String.mk
    (if i < 0 then '-' :: natDigits ((-i).toNat + 1) (-i).toNat
     else natDigits (i.toNat + 1) i.toNat)

/-- Fractional decimal digits of a rational in [0,1), up to `fuel` digits
(terminates early on exact zero).  JS prints the shortest float
representation; every value the verified claims print is an integer, so this
bounded expansion is only a tie-breaking convention for non-integer output. -/
def fracDigits (fuel : Nat) (r : Q) : List Char :=
  match fuel with
  | 0 => []
  | fuel + 1 =>
      if r = Q.ofInt 0 then []
      else
        let r10 := r * 10
        let d := r10.floor
        Nat.digitChar (d.toNat % 10) :: fracDigits fuel (r10 - Q.ofInt d)

/-- The string JS produces for a number (`String(val)`): integer values print
with no decimal point, other values print sign, integer part, and fractional
digits. -/
def ratToJsString (q : Q) : String :=
  if q.dm1 = 0 then intToStr q.n
  else
    let sign := if Q.blt q 0 then "-" else ""
    let a := Q.abs q
    sign ++ natToStr a.floor.toNat ++ "." ++
      String.mk (fracDigits 20 (a - Q.ofInt a.floor))

/-- Kernel-reducible version of `String.trim` (JS `trim`). -/
def jsTrim (s : String) : String :=
  String.mk (((s.data.dropWhile Char.isWhitespace).reverse.dropWhile Char.isWhitespace).reverse)

/-- Kernel-reducible `String.startsWith`. -/
def strStartsWith (s pre : String) : Bool := pre.data.isPrefixOf s.data

/-- Kernel-reducible `String.endsWith`. -/
def strEndsWith (s suf : String) : Bool := suf.data.reverse.isPrefixOf s.data.reverse

/-- Kernel-reducible `String.drop`. -/
def strDrop (s : String) (n : Nat) : String := String.mk (s.data.drop n)

/-- Kernel-reducible `String.dropRight`. -/
def strDropRight (s : String) (n : Nat) : String := String.mk (s.data.take (s.data.length - n))

/-- Kernel-reducible split on a nonempty literal separator
(JS `String.prototype.split`). -/
def splitOnSub (s sep : String) : List String :=
  go (s.data.length + 1) s.data [] []
where
  go (fuel : Nat) (cs : List Char) (cur : List Char) (acc : List String) : List String :=
    match fuel with
    | 0 => (String.mk cur.reverse :: acc).reverse
    | fuel + 1 =>
        if sep.data ≠ [] ∧ sep.data.isPrefixOf cs then
          go fuel (cs.drop sep.data.length) [] (String.mk cur.reverse :: acc)
        else
          match cs with
          | [] => (String.mk cur.reverse :: acc).reverse
          | c :: rest => go fuel rest (c :: cur) acc

/-- JS `ToNumber` on a string, restricted to the literal forms the simulator
produces and consumes: trimmed decimal (with optional sign and fraction) and
`0x` hexadecimal literals; the empty string is 0; anything else is NaN,
modelled as `none`. -/
def jsStringToNumber (s : String) : Option Q :=
  let cs := (jsTrim s).data
  if cs = [] then some 0
  else
    let (neg, cs) := match cs with
      | '-' :: rest => (true, rest)
      | '+' :: rest => (false, rest)
      | _ => (false, cs)
    match parseDigits cs with
    | some (n, []) => some (if neg then -Q.ofNat n else Q.ofNat n)
    | some (n, '.' :: frac) =>
        if frac ≠ [] && frac.all (fun c => c.isDigit) then
          let f : Q := Q.ofNat (frac.foldl (fun a c => a * 10 + (c.toNat - 48)) 0)
          let v : Q := Q.ofNat n + f / Q.ofInt (intPow10 frac.length)
          some (if neg then -v else v)
        else none
    | _ =>
        match cs with
        | '0' :: 'x' :: hs =>
            if !neg && hs ≠ [] && hs.all (fun c => c.isDigit || ('a' ≤ c && c ≤ 'f') || ('A' ≤ c && c ≤ 'F')) then
              some (Q.ofNat (hs.foldl (fun a c => a * 16 + hexVal c) 0))
            else none
        | _ => none
where
  parseDigits (cs : List Char) : Option (Nat × List Char) :=
    let ds := cs.takeWhile (fun c => c.isDigit)
    if ds = [] then none
    else some (ds.foldl (fun a c => a * 10 + (c.toNat - 48)) 0, cs.drop ds.length)
  hexVal (c : Char) : Nat :=
    if c.isDigit then c.toNat - 48
    else if 'a' ≤ c && c ≤ 'f' then c.toNat - 87
    else if 'A' ≤ c && c ≤ 'F' then c.toNat - 55
    else 0

/-- JS string conversion of an interpreter value. -/
def Value.toStr : Value → String
  | .num q => ratToJsString q
  | .str s => s

/-- JS numeric coercion of an interpreter value, with NaN collapsed to 0
(no verified claim evaluates a NaN; see the doc comments at the call sites). -/
def Value.toNum : Value → Q
  | .num q => q
  | .str s => (jsStringToNumber s).getD 0

/-- The JS property key a value denotes when used to index `this.pins`. -/
def valueToKey : Value → String
  | .num q => ratToJsString q
  | .str s => s

/-- JS loose equality `==` on the values the simulator produces: same-type
compares directly, a number against a string compares against the string's
numeric coercion (NaN compares unequal). -/
def jsEq : Value → Value → Bool
  | .num a, .num b => a == b
  | .str a, .str b => a == b
  | .num a, .str b => match jsStringToNumber b with | some q => a == q | none => false
  | .str a, .num b => match jsStringToNumber a with | some q => q == b | none => false

/-- JS `<` : two strings compare lexicographically, otherwise numerically
(false when a coercion is NaN). -/
def jsLt : Value → Value → Bool
  | .str a, .str b => a < b
  | a, b =>
      match a, b with
      | .num x, .num y => x < y
      | .num x, .str s => match jsStringToNumber s with | some y => x < y | none => false
      | .str s, .num y => match jsStringToNumber s with | some x => x < y | none => false
      | _, _ => false

/-- JS `<=` (same coercion rules as `<`). -/
def jsLe : Value → Value → Bool
  | .str a, .str b => a ≤ b
  | .num x, .num y => x ≤ y
  | .num x, .str s => match jsStringToNumber s with | some y => x ≤ y | none => false
  | .str s, .num y => match jsStringToNumber s with | some x => x ≤ y | none => false

/-- JS `Math.round`: floor of the value plus one half (ties toward +∞). -/
def jsRound (q : Q) : Q := Q.ofInt (Q.floor (q + Q.ofInt 1 / Q.ofInt 2))

/-- JS `Math.floor` as a rational-valued function. -/
def jsFloor (q : Q) : Q := Q.ofInt (Q.floor q)

/-- Iterated rational power (kernel-computable). -/
def Q.powNat (a : Q) : Nat → Q
  | 0 => 1
  | k + 1 => a * Q.powNat a k

/-- JS `Math.sqrt`, exact on perfect squares of integers (the only inputs a
verified claim could produce); other inputs get the integer-square-root
approximation of the numerator/denominator. -/
def jsSqrt (q : Q) : Q :=
  if Q.blt q 0 then 0
  else Q.ofNat ((q.n.natAbs * q.den).sqrt) / Q.ofNat q.den

/-- JS `Math.pow` for the rational-exponent-free cases the simulator uses:
integral exponents are exact, fractional exponents (float powers) are not
modelled and return 0. -/
def jsPow (a b : Q) : Q :=
  if b.dm1 = 0 then
    if 0 ≤ b.n then Q.powNat a b.n.toNat
    else Q.ofInt 1 / Q.powNat a (-b.n).toNat
  else 0

/-! ### Variable scopes (JS objects used as name-to-value tables) -/

/-- A variable table (`this.variables` / `localVars`): an association list in
JS-object insertion order — updating an existing key keeps its position,
adding a new key appends. -/
def Scope := List (String × Value)

instance : DecidableEq Scope := by unfold Scope; infer_instance

/-- Property lookup. -/
def Scope.get? (s : Scope) (k : String) : Option Value :=
  match s with
  | [] => none
  | (k', v) :: rest => if k' = k then some v else Scope.get? rest k

/-- The JS `in` operator (`name in localVars`). -/
def Scope.mem (s : Scope) (k : String) : Bool :=
  match s with
  | [] => false
  | (k', _) :: rest => k' = k || Scope.mem rest k

/-- Property assignment: update in place or append. -/
def Scope.set (s : Scope) (k : String) (v : Value) : Scope :=
  match s with
  | [] => [(k, v)]
  | (k', v') :: rest => if k' = k then (k', v) :: rest else (k', v') :: Scope.set rest k v

/-- JS object spread `{ ...a, ...b }`: `a`'s entries in order with `b`'s
values overriding, then `b`'s new keys appended in order. -/
def Scope.merge (a b : Scope) : Scope :=
  b.foldl (fun acc kv => acc.set kv.1 kv.2) a

/-- Keys of a scope, in insertion order. -/
def Scope.keys (s : Scope) : List String := s.map (·.1)

/-! ### Mirrors of the JS regular-expression matchers of ArduinoParser

Each function below is the hand-translated semantics of one regex literal
from ArduinoParser.js, written over `List Char`.  In these regexes `.`
matches any character except a newline, `\s` is whitespace, `\w` is
`[A-Za-z0-9_]`; greedy subpatterns take the longest match that lets the rest
of the pattern succeed, lazy (`+?`/`*?`) subpatterns the shortest. -/

/-- All ways to split `cs` as `pre ++ [c] ++ suf`, leftmost first. -/
def splitsAtChar (c : Char) : List Char → List (List Char × List Char)
  | [] => []
  | x :: xs =>
      (if x = c then [(([] : List Char), xs)] else []) ++
        (splitsAtChar c xs).map (fun p => (x :: p.1, p.2))

/-- Semantics of `\s*(.+)\s*` (greedy) or `\s*(.+?)\s*` (lazy) standing
before a fixed delimiter, applied to the text `pre` before that delimiter.
The leading `\s*` absorbs the whole leading whitespace run; the capture is
the newline-free core between the whitespace runs — greedy additionally
takes the newline-free prefix of the trailing run, lazy leaves it all to
the trailing `\s*`.  When `pre` is pure whitespace the capture (which `.+`
must still fill with at least one non-newline character) is whitespace that
every consumer immediately trims away, so the model returns a canonical
single space. -/
def capPlus (lazyq : Bool) (pre : List Char) : Option (List Char) :=
  let w1 := pre.takeWhile (fun c => c.isWhitespace)
  let rest := pre.drop w1.length
  if rest.isEmpty then
    if pre.any (fun c => c ≠ '\n') then some [' '] else none
  else
    let w2 := (rest.reverse.takeWhile (fun c => c.isWhitespace)).reverse
    let core := rest.take (rest.length - w2.length)
    if core.elem '\n' then none
    else some (if lazyq then core else core ++ w2.takeWhile (fun c => c ≠ '\n'))

/-- Semantics of `\s*(.*)\s*` / `\s*(.*?)\s*` before a fixed delimiter
(possibly-empty captures): as `capPlus`, but a pure-whitespace `pre` yields
the empty capture. -/
def capStar (lazyq : Bool) (pre : List Char) : Option (List Char) :=
  let w1 := pre.takeWhile (fun c => c.isWhitespace)
  let rest := pre.drop w1.length
  if rest.isEmpty then some []
  else
    let w2 := (rest.reverse.takeWhile (fun c => c.isWhitespace)).reverse
    let core := rest.take (rest.length - w2.length)
    if core.elem '\n' then none
    else some (if lazyq then core else core ++ w2.takeWhile (fun c => c ≠ '\n'))

/-- Greedy `\s*(.+)\s*<delim>`: capture against the last viable `<delim>`
occurrence, returning the capture and the text after the delimiter. -/
def capToLastDelim (delim : Char) (cs : List Char) : Option (List Char × List Char) :=
  go ((splitsAtChar delim cs).reverse)
where
  go : List (List Char × List Char) → Option (List Char × List Char)
    | [] => none
    | (pre, suf) :: rest =>
        match capPlus false pre with
        | some cap => some (cap, suf)
        | none => go rest

/-- Lazy `\s*(.+?)\s*<delim>`: capture against the first viable `<delim>`
occurrence. -/
def capToFirstDelim (delim : Char) (cs : List Char) : Option (List Char × List Char) :=
  go (splitsAtChar delim cs)
where
  go : List (List Char × List Char) → Option (List Char × List Char)
    | [] => none
    | (pre, suf) :: rest =>
        match capPlus true pre with
        | some cap => some (cap, suf)
        | none => go rest

/-- Greedy `\s*(.*)\s*<delim>` (used by `Serial.print`): last viable
delimiter, empty capture allowed. -/
def capStarToLastDelim (delim : Char) (cs : List Char) : Option (List Char × List Char) :=
  go ((splitsAtChar delim cs).reverse)
where
  go : List (List Char × List Char) → Option (List Char × List Char)
    | [] => none
    | (pre, suf) :: rest =>
        match capStar false pre with
        | some cap => some (cap, suf)
        | none => go rest

/-- Lazy `\s*(.*?)\s*<delim>` (used by the function-call argument list):
first viable delimiter, empty capture allowed. -/
def capStarToFirstDelim (delim : Char) (cs : List Char) : Option (List Char × List Char) :=
  go (splitsAtChar delim cs)
where
  go : List (List Char × List Char) → Option (List Char × List Char)
    | [] => none
    | (pre, suf) :: rest =>
        match capStar true pre with
        | some cap => some (cap, suf)
        | none => go rest

/-- Match a literal prefix. -/
def dropLit (lit : String) (cs : List Char) : Option (List Char) :=
  if lit.data.isPrefixOf cs then some (cs.drop lit.length) else none

/-- Match `\s*\(` : optional whitespace then an opening parenthesis. -/
def wsLParen (cs : List Char) : Option (List Char) :=
  match dropWs cs with
  | '(' :: rest => some rest
  | _ => none

/-- Mirror of `^delay\s*\(\s*(.+)\s*\)` (and of
`^delayMicroseconds\s*\(\s*(.+)\s*\)` via the `kw` argument, and of the
similarly shaped greedy one-argument matchers): keyword, optional
whitespace, `(`, greedy capture against the last viable `)`. -/
def matchGreedy1 (kw : String) (s : String) : Option String := do
  let cs ← dropLit kw s.data
  let cs ← wsLParen cs
  let (cap, _) ← capToLastDelim ')' cs
  pure (String.mk cap)

/-- Mirror of the lazy one-argument matchers
`^NAME\s*\(\s*(.+?)\s*\)` (`noTone`, `digitalRead`, `analogRead`, `abs`,
`sqrt`, `isnan`). -/
def matchLazy1 (kw : String) (s : String) : Option String := do
  let cs ← dropLit kw s.data
  let cs ← wsLParen cs
  let (cap, _) ← capToFirstDelim ')' cs
  pure (String.mk cap)

/-- Mirror of the lazy two-argument matchers
`^NAME\s*\(\s*(.+?)\s*,\s*(.+?)\s*\)` (`pinMode`, `digitalWrite`,
`analogWrite`, `ledcWrite`, `min`/`max`, `pow`). -/
def matchLazy2 (kw : String) (s : String) : Option (String × String) := do
  let cs ← dropLit kw s.data
  let cs ← wsLParen cs
  let (a1, r1) ← capToFirstDelim ',' cs
  let (a2, _) ← capToFirstDelim ')' r1
  pure (String.mk a1, String.mk a2)

/-- Mirror of `^Serial\.begin\s*\(` (match test only). -/
def isSerialBegin (s : String) : Bool :=
  match dropLit "Serial.begin" s.data with
  | some cs => (wsLParen cs).isSome
  | none => false

/-- Mirror of `^Serial\.(print|println)\s*\(\s*(.*)\s*\)`: the alternation
tries `print` first, falling back to `println` when `\s*\(` does not follow
(exactly what the JS engine's backtracking does on `Serial.println(…)`).
Returns the `isPrintln` flag and the raw greedy capture. -/
def matchPrint (s : String) : Option (Bool × String) := do
  let cs ← dropLit "Serial.print" s.data
  match wsLParen cs with
  | some r => do
      let (cap, _) ← capStarToLastDelim ')' r
      pure (false, String.mk cap)
  | none => do
      let cs ← dropLit "ln" cs
      let r ← wsLParen cs
      let (cap, _) ← capStarToLastDelim ')' r
      pure (true, String.mk cap)

/-- Mirror of `^Serial\.printf\s*\(\s*"(.+?)"\s*(?:,\s*(.*))?\s*\)`:
the format string is the lazy capture up to the first `"`, the optional
argument list is the greedy capture against the last `)`. -/
def matchPrintf (s : String) : Option (String × Option String) := do
  let cs ← dropLit "Serial.printf" s.data
  let cs ← wsLParen cs
  match dropWs cs with
  | '"' :: r =>
      match splitsAtChar '"' r with
      | [] => none
      | (fmt, after) :: _ =>
          if fmt = [] || fmt.elem '\n' then none
          else
            match dropWs after with
            | ',' :: r2 => do
                let (args, _) ← capStarToLastDelim ')' r2
                pure (String.mk fmt, some (String.mk args))
            | ')' :: _ => pure (String.mk fmt, none)
            | _ => none
  | _ => none

/-- Mirror of `^tone\s*\(\s*(.+?)\s*,\s*(.+?)(?:\s*,\s*(.+?))?\s*\)`:
after the first comma the lazy second capture stops at the first viable `,`
(optional duration follows) or `)` (no duration), whichever the backtracking
engine reaches first. -/
def matchTone (s : String) : Option (String × String × Option String) := do
  let cs ← dropLit "tone" s.data
  let cs ← wsLParen cs
  let (_pin, r1) ← capToFirstDelim ',' cs
  go r1 []
where
  go : List Char → List Char → Option (String × String × Option String)
    | [], _ => none
    | c :: rest, acc =>
        if c = ',' then
          match capPlus true acc.reverse with
          | some freq =>
              match capToFirstDelim ')' rest with
              | some (dur, _) => some ("", String.mk freq, some (String.mk dur))
              | none => go rest (c :: acc)
          | none => go rest (c :: acc)
        else if c = ')' then
          match capPlus true acc.reverse with
          | some freq => some ("", String.mk freq, none)
          | none => go rest (c :: acc)
        else go rest (c :: acc)

/-- Wrapper fixing up `matchTone.go`'s placeholder pin with the first
capture. -/
def matchToneFull (s : String) : Option (String × String × Option String) := do
  let cs ← dropLit "tone" s.data
  let cs ← wsLParen cs
  let (pin, r1) ← capToFirstDelim ',' cs
  let (_, freq, dur) ← matchTone.go r1 []
  pure (String.mk pin, freq, dur)

/-- The type-keyword alternation
`(?:int|float|double|bool|long|unsigned\s+long|byte|char|String)\s+` of the
assignment matcher: returns the text after the keyword and the following
whitespace run, `none` if no alternative applies. -/
def dropTypeKw (cs : List Char) : Option (List Char) :=
  goAlts ["int", "float", "double", "bool", "long"] <|> goUnsigned <|>
    goAlts ["byte", "char", "String"]
where
  afterWsPlus (r : List Char) : Option (List Char) :=
    match r with
    | c :: rest => if c.isWhitespace then some (dropWs rest) else none
    | [] => none
  goAlts : List String → Option (List Char)
    | [] => none
    | kw :: kws =>
        match dropLit kw cs with
        | some r => match afterWsPlus r with
                    | some r' => some r'
                    | none => goAlts kws
        | none => goAlts kws
  goUnsigned : Option (List Char) := do
    let r ← dropLit "unsigned" cs
    let r ← afterWsPlus r
    let r ← dropLit "long" r
    afterWsPlus r

/-- The trailing `\s*(.+)` of the assignment matcher (unanchored at the end,
`.` stops at a newline): whitespace then the rest of the current line, with
the pure-whitespace backtracking corner canonicalised as in `capPlus`. -/
def exprTail (cs : List Char) : Option String :=
  let r := dropWs cs
  if r.isEmpty then
    if cs.any (fun c => c ≠ '\n') then some " " else none
  else
    let e := r.takeWhile (fun c => c ≠ '\n')
    if e.isEmpty then none else some (String.mk e)

/-- Mirror of the assignment matcher
`^(?:(?:int|float|double|bool|long|unsigned\s+long|byte|char|String)\s+)?(\w+)\s*([\+\-\*\/]?=)\s*(.+)`;
the optional type keyword is tried first and dropped again (regex
backtracking) when the rest of the pattern fails with it. -/
def matchAssign (s : String) : Option (String × String × String) :=
  match go (dropTypeKw s.data) with
  | some r => some r
  | none =>
      match dropTypeKw s.data with
      | some _ => go9 s.data
      | none => go9 s.data
where
  go : Option (List Char) → Option (String × String × String)
    | some cs => go9 cs
    | none => none
  go9 (cs : List Char) : Option (String × String × String) :=
    let name := cs.takeWhile isWordChar
    if name.isEmpty then none
    else
      let r := dropWs (cs.drop name.length)
      match r with
      | c :: '=' :: rest =>
          if c = '+' || c = '-' || c = '*' || c = '/' then
            (exprTail rest).map (fun e => (String.mk name, String.mk [c, '='], e))
          else if c = '=' then
            -- `==` : the op capture takes the first `=`, `(.+)` starts at the second
            (exprTail ('=' :: rest)).map (fun e => (String.mk name, "=", e))
          else none
      | '=' :: rest => (exprTail rest).map (fun e => (String.mk name, "=", e))
      | _ => none

/-- Mirror of `^(\w+)\s*(\+\+|--)$` (postfix increment/decrement,
end-anchored). -/
def matchInc (s : String) : Option (String × Bool) :=
  let cs := s.data
  let name := cs.takeWhile isWordChar
  if name.isEmpty then none
  else
    match dropWs (cs.drop name.length) with
    | ['+', '+'] => some (String.mk name, true)
    | ['-', '-'] => some (String.mk name, false)
    | _ => none

/-- The `\s*\)\s*\{` step of the loop matchers: lazy capture against each
`)` candidate that is followed by optional whitespace and `{`; the body is
then the greedy `([\s\S]*)` capture against the last `}`. -/
def capCondThenBody (cs : List Char) : Option (String × String) :=
  go (splitsAtChar ')' cs)
where
  go : List (List Char × List Char) → Option (String × String)
    | [] => none
    | (pre, suf) :: rest =>
        match capPlus true pre with
        | some cap =>
            match dropWs suf with
            | '{' :: r =>
                match (splitsAtChar '}' r).reverse with
                | (body, _) :: _ => some (String.mk cap, String.mk body)
                | [] => go rest
            | _ => go rest
        | none => go rest

/-- Mirror of
`^for\s*\(\s*(.+?)\s*;\s*(.+?)\s*;\s*(.+?)\s*\)\s*\{([\s\S]*)\}`. -/
def matchFor (s : String) : Option (String × String × String × String) := do
  let cs ← dropLit "for" s.data
  let cs ← wsLParen cs
  let (init, r1) ← capToFirstDelim ';' cs
  let (cond, r2) ← capToFirstDelim ';' r1
  let (step, body) ← capCondThenBody r2
  pure (String.mk init, String.mk cond, step, body)

/-- Mirror of `^while\s*\(\s*(.+?)\s*\)\s*\{([\s\S]*)\}`. -/
def matchWhile (s : String) : Option (String × String) := do
  let cs ← dropLit "while" s.data
  let cs ← wsLParen cs
  capCondThenBody cs

/-- Mirror of `^(?:else\s+)?if\s*\(\s*(.+?)\s*\)\s*\{([\s\S]*?)\}([\s\S]*)`
(used by `executeIfElse`): optional `else` + whitespace, `if`, lazy
condition to the first viable `)` followed by `{`, lazy body to the first
`}`, and the remaining trailing text. -/
def matchIfChain (s : String) : Option (String × String × String) := do
  let cs0 := s.data
  let cs1 :=
    match dropLit "else" cs0 with
    | some r =>
        match r with
        | c :: rest => if c.isWhitespace then dropWs rest else cs0
        | [] => cs0
    | none => cs0
  let cs ← dropLit "if" cs1
  let cs ← wsLParen cs
  goCond (splitsAtChar ')' cs)
where
  goCond : List (List Char × List Char) → Option (String × String × String)
    | [] => none
    | (pre, suf) :: rest =>
        match capPlus true pre with
        | some cond =>
            match dropWs suf with
            | '{' :: r =>
                match splitsAtChar '}' r with
                | (body, after) :: _ => some (String.mk cond, String.mk body, String.mk after)
                | [] => goCond rest
            | _ => goCond rest
        | none => goCond rest

/-- Mirror of `^else\s*\{([\s\S]*)\}` (plain else block, greedy body to the
last `}`). -/
def matchElse (s : String) : Option String := do
  let cs ← dropLit "else" s.data
  match dropWs cs with
  | '{' :: r =>
      match (splitsAtChar '}' r).reverse with
      | (body, _) :: _ => some (String.mk body)
      | [] => none
  | _ => none

/-- Mirror of `^(\w+)\s*\(\s*(.*?)\s*\)` (bare call to a user-defined
function): identifier, `(`, lazy possibly-empty argument text to the first
`)`. -/
def matchFuncCall (s : String) : Option (String × String) :=
  let cs := s.data
  let name := cs.takeWhile isWordChar
  if name.isEmpty then none
  else do
    let r ← wsLParen (cs.drop name.length)
    let (args, _) ← capStarToFirstDelim ')' r
    pure (String.mk name, String.mk args)

/-- Mirror of `^map\s*\(\s*(.+?)\s*,\s*(.+?)\s*,\s*(.+?)\s*,\s*(.+?)\s*,\s*(.+?)\s*\)`. -/
def matchMap (s : String) : Option (String × String × String × String × String) := do
  let cs ← dropLit "map" s.data
  let cs ← wsLParen cs
  let (a1, r1) ← capToFirstDelim ',' cs
  let (a2, r2) ← capToFirstDelim ',' r1
  let (a3, r3) ← capToFirstDelim ',' r2
  let (a4, r4) ← capToFirstDelim ',' r3
  let (a5, _) ← capToFirstDelim ')' r4
  pure (String.mk a1, String.mk a2, String.mk a3, String.mk a4, String.mk a5)

/-- Mirror of `^constrain\s*\(\s*(.+?)\s*,\s*(.+?)\s*,\s*(.+?)\s*\)`. -/
def matchConstrain (s : String) : Option (String × String × String) := do
  let cs ← dropLit "constrain" s.data
  let cs ← wsLParen cs
  let (a1, r1) ← capToFirstDelim ',' cs
  let (a2, r2) ← capToFirstDelim ',' r1
  let (a3, _) ← capToFirstDelim ')' r2
  pure (String.mk a1, String.mk a2, String.mk a3)

/-- Mirror of `^random\s*\(\s*(?:(.+?)\s*,\s*)?(.+?)\s*\)`: the optional
first argument is tried at each comma candidate (regex backtracking), with
the single-argument reading as the fallback. -/
def matchRandom (s : String) : Option (Option String × String) := do
  let cs ← dropLit "random" s.data
  let cs ← wsLParen cs
  match goPair (splitsAtChar ',' cs) with
  | some r => some r
  | none => do
      let (b, _) ← capToFirstDelim ')' cs
      pure (none, String.mk b)
where
  goPair : List (List Char × List Char) → Option (Option String × String)
    | [] => none
    | (pre, suf) :: rest =>
        match capPlus true pre with
        | some a =>
            match capToFirstDelim ')' suf with
            | some (b, _) => some (some (String.mk a), String.mk b)
            | none => goPair rest
        | none => goPair rest

/-! ### Expression evaluation (ArduinoParser.evaluateExpr / evaluateCondition) -/

/-- Test of `/^-?\d+(\.\d+)?$/` (signed decimal literal). -/
def isDecLit (s : String) : Bool :=
  let cs := match s.data with
    | '-' :: rest => rest
    | cs => cs
  let ds := cs.takeWhile (fun c => c.isDigit)
  if ds.isEmpty then false
  else
    match cs.drop ds.length with
    | [] => true
    | '.' :: frac => !frac.isEmpty && frac.all (fun c => c.isDigit)
    | _ => false

/-- Test of `/^0x[0-9a-fA-F]+$/` (hexadecimal literal). -/
def isHexLit (s : String) : Bool :=
  match s.data with
  | '0' :: 'x' :: hs =>
      !hs.isEmpty &&
        hs.all (fun c => c.isDigit || ('a' ≤ c && c ≤ 'f') || ('A' ≤ c && c ≤ 'F'))
  | _ => false

/-- The `expr.slice(1, -1)` of the quoted-literal branches: drop the first
and last character (empty result on strings of length ≤ 2, as in JS). -/
def strInterior (s : String) : String :=
  String.mk ((s.data.drop 1).take (s.data.length - 2))

/-- JS `String.prototype.indexOf` for a nonempty needle: index of the first
occurrence. -/
def indexOfSub (s sub : String) : Option Nat :=
  go s.data 0
where
  go : List Char → Nat → Option Nat
    | [], _ => if sub.data.isPrefixOf [] then some 0 else none
    | cs@(_ :: rest), i =>
        if sub.data.isPrefixOf cs then some i else go rest (i + 1)

/-- JS `String.prototype.includes` restricted to substring search. -/
def containsSub (s sub : String) : Bool := (indexOfSub s sub).isSome

/-- The comparison-operator scan of `evaluateCondition` (ArduinoParser.js
lines 413-415): the first operator of `['>=','<=','!=','==','>','<']` (in
that priority order) that occurs anywhere in the expression, with the text
before and after its first occurrence. -/
def findFirstOp (s : String) : Option (String × String × String) :=
  go [">=", "<=", "!=", "==", ">", "<"]
where
  go : List String → Option (String × String × String)
    | [] => none
    | op :: ops =>
        match indexOfSub s op with
        | some i =>
            some (op, String.mk (s.data.take i), String.mk (s.data.drop (i + op.length)))
        | none => go ops

/-- The six loose comparisons of `evaluateCondition` (ArduinoParser.js
lines 418-425). -/
def applyCmp (op : String) (l r : Value) : Bool :=
  if op = "==" then jsEq l r
  else if op = "!=" then !jsEq l r
  else if op = ">" then jsLt r l
  else if op = "<" then jsLt l r
  else if op = ">=" then jsLe r l
  else jsLe l r

/-- JS `+` on the simulator's values: numeric addition, or string
concatenation when either side is a string. -/
def jsAdd : Value → Value → Value
  | .num a, .num b => .num (a + b)
  | a, b => .str (a.toStr ++ b.toStr)

/-- JS `-` (numeric coercion; NaN collapsed to 0, see `Value.toNum`). -/
def jsSub (a b : Value) : Value := .num (a.toNum - b.toNum)

/-- JS `*`. -/
def jsMul (a b : Value) : Value := .num (a.toNum * b.toNum)

/-- JS `/` with a zero divisor collapsed to 0 (JS produces
Infinity/NaN there; no verified claim divides by zero). -/
def jsDiv (a b : Value) : Value :=
  .num (if b.toNum = 0 then 0 else a.toNum / b.toNum)

/-- JS `%` (remainder with the dividend's sign, built on truncation toward
zero); a zero modulus is collapsed to 0 (JS produces NaN; no verified claim
takes a modulus by zero). -/
def jsMod (a b : Q) : Q :=
  if b = Q.ofInt 0 then 0 else a - b * Q.ofInt (Q.trunc (a / b))

/-- One JS-boundary-aware global replacement pass: the semantics of
`text.replace(new RegExp('\\b' + name + '\\b', 'g'), val)` for an identifier
`name` (nonempty, word characters only — which every variable name the
simulator stores is).  Matches are found left to right on the original text
and are non-overlapping; replacement text is not rescanned. -/
def replaceWord (name val text : String) : String :=
  if name.data.isEmpty then text
  else String.mk (go (text.data.length + 1) text.data none)
where
  go (fuel : Nat) (cs : List Char) (prev : Option Char) : List Char :=
    match fuel with
    | 0 => cs
    | fuel + 1 =>
        match cs with
        | [] => []
        | c :: rest =>
            let boundaryBefore := match prev with
              | none => true
              | some p => !isWordChar p
            let after := cs.drop name.length
            let boundaryAfter := match after with
              | [] => true
              | a :: _ => !isWordChar a
            if name.data.isPrefixOf cs && boundaryBefore && boundaryAfter then
              val.data ++ go fuel after (some (name.data.getLastD ' '))
            else
              c :: go fuel rest (some c)

/-- Plain (boundary-free) global substring replacement, one pass left to
right: the semantics of `text.replace(/pat/g, rep)` for a literal pattern. -/
def replaceSub (text pat rep : String) : String :=
  if pat.data.isEmpty then text
  else String.mk (go (text.data.length + 1) text.data)
where
  go (fuel : Nat) (cs : List Char) : List Char :=
    match fuel with
    | 0 => cs
    | fuel + 1 =>
        match cs with
        | [] => []
        | c :: rest =>
            if pat.data.isPrefixOf cs then rep.data ++ go fuel (cs.drop pat.length)
            else c :: go fuel rest

/-- The escape expansion `.replace(/\\n/g, '\n').replace(/\\t/g, '\t')`
applied to serial output. -/
def expandEscapes (s : String) : String :=
  replaceSub (replaceSub s "\\n" "\n") "\\t" "\t"

/-- Stable sort of the variable entries by descending name length
(`Object.keys(allVars).sort((a, b) => b.length - a.length)`; JS sort is
stable). -/
def sortByLenDesc (s : Scope) : Scope :=
  s.foldl (fun acc x => insertByLen x acc) []
where
  insertByLen (x : String × Value) : Scope → Scope
    | [] => [x]
    | y :: ys =>
        if x.1.length ≤ y.1.length then y :: insertByLen x ys else x :: y :: ys

/-- The textual-substitution step of the arithmetic fallback
(ArduinoParser.js lines 543-556): every numeric-valued variable of the
merged scope is substituted longest-name-first, then the four keyword
constants. -/
def substituteVars (allVars : Scope) (expr : String) : String :=
  let sorted := sortByLenDesc allVars
  let t := sorted.foldl
    (fun t kv =>
      match kv.2 with
      | .num q => replaceWord kv.1 (ratToJsString q) t
      | .str _ => t) expr
  replaceWord "false" "0" (replaceWord "true" "1" (replaceWord "LOW" "0" (replaceWord "HIGH" "1" t)))

/-- The safety test `/^[\d\s\+\-\*\/\%\.\(\)]+$/` guarding the arithmetic
fallback. -/
def safeArithTest (s : String) : Bool :=
  !s.data.isEmpty &&
    s.data.all (fun c =>
      c.isDigit || c.isWhitespace || c = '+' || c = '-' || c = '*' || c = '/' ||
        c = '%' || c = '.' || c = '(' || c = ')')

/-- Numeric literal inside the arithmetic fallback (JS grammar: digits with
an optional fraction, or a bare fraction like `.5`). -/
def parseArithNum (cs : List Char) : Option (Q × List Char) :=
  let ds := cs.takeWhile (fun c => c.isDigit)
  let rest := cs.drop ds.length
  match rest with
  | '.' :: r2 =>
      let fs := r2.takeWhile (fun c => c.isDigit)
      if ds.isEmpty && fs.isEmpty then none
      else
        let ip : Q := Q.ofNat (ds.foldl (fun a c => a * 10 + (c.toNat - 48)) 0)
        let fp : Q := Q.ofNat (fs.foldl (fun a c => a * 10 + (c.toNat - 48)) 0)
        some (ip + fp / Q.ofInt (intPow10 fs.length), r2.drop fs.length)
  | _ =>
      if ds.isEmpty then none
      else some (Q.ofNat (ds.foldl (fun a c => a * 10 + (c.toNat - 48)) 0), rest)

mutual

/-- Recursive-descent evaluation of the guarded arithmetic expression, with
JS precedence (`* / %` over `+ -`, parentheses, unary sign).  Returns `none`
exactly on a syntax error (which in the source throws and is caught,
yielding 0); a zero divisor yields 0 in place of JS Infinity/NaN (no claim
divides by zero). -/
def arithExpr : Nat → List Char → Option (Q × List Char)
  | 0, _ => none
  | fuel + 1, cs => do
      let (t, r) ← arithTerm fuel cs
      arithAddLoop fuel t r

/-- Additive loop of the fallback evaluator. -/
def arithAddLoop : Nat → Q → List Char → Option (Q × List Char)
  | 0, _, _ => none
  | fuel + 1, acc, cs =>
      match dropWs cs with
      | '+' :: r => do
          let (t, r') ← arithTerm fuel r
          arithAddLoop fuel (acc + t) r'
      | '-' :: r => do
          let (t, r') ← arithTerm fuel r
          arithAddLoop fuel (acc - t) r'
      | r => some (acc, r)
termination_by structural fuel _ _ => fuel

/-- Multiplicative level of the fallback evaluator. -/
def arithTerm : Nat → List Char → Option (Q × List Char)
  | 0, _ => none
  | fuel + 1, cs => do
      let (f, r) ← arithFactor fuel cs
      arithMulLoop fuel f r

/-- Multiplicative loop of the fallback evaluator. -/
def arithMulLoop : Nat → Q → List Char → Option (Q × List Char)
  | 0, _, _ => none
  | fuel + 1, acc, cs =>
      match dropWs cs with
      | '*' :: r => do
          let (f, r') ← arithFactor fuel r
          arithMulLoop fuel (acc * f) r'
      | '/' :: r => do
          let (f, r') ← arithFactor fuel r
          arithMulLoop fuel (if f = 0 then 0 else acc / f) r'
      | '%' :: r => do
          let (f, r') ← arithFactor fuel r
          arithMulLoop fuel (jsMod acc f) r'
      | r => some (acc, r)

/-- Atom level of the fallback evaluator: parenthesised expression, unary
sign, or numeric literal. -/
def arithFactor : Nat → List Char → Option (Q × List Char)
  | 0, _ => none
  | fuel + 1, cs =>
      match dropWs cs with
      | '(' :: r => do
          let (v, r') ← arithExpr fuel r
          match dropWs r' with
          | ')' :: r'' => some (v, r'')
          | _ => none
      | '-' :: r => do
          let (v, r') ← arithFactor fuel r
          some (-v, r')
      | '+' :: r => arithFactor fuel r
      | r => parseArithNum r

end

/-- Evaluation of the substituted text by the restricted `Function`
constructor call (ArduinoParser.js line 560): a full parse yields the value,
anything else is a syntax error (`none`). -/
def evalArith (s : String) : Option Q :=
  match arithExpr (s.length + 1) s.data with
  | some (v, r) => if dropWs r = [] then some v else none
  | none => none

/-- The complete best-effort arithmetic fallback (ArduinoParser.js lines
540-566): substitute, test, evaluate; any failure yields 0. -/
def arithFallback (allVars : Scope) (expr : String) : Value :=
  let t := substituteVars allVars expr
  if safeArithTest t then
    match evalArith t with
    | some v => .num v
    | none => .num 0
  else .num 0

/-- Read-only context `evaluateExpr` consults: the pin model
(`this.pinManager`), the global table (`this.variables`), the elapsed wall
time `Date.now() - this.startTime` in ms, the speed multiplier
(`this.speed`), and the sample `Math.random()` would return (the model
fixes one sample per evaluation context; no verified claim uses
`random`). -/
structure Env where
  pm : PinManager
  globals : Scope
  elapsedMs : Nat
  speed : Q
  rand : Q

/-- Embedding of `ArduinoParser.evaluateExpr` (ArduinoParser.js lines
436-567), fuel-indexed for the recursion into sub-expressions (the fuel is
never exhausted at the values the theorems use; exhaustion returns 0).  The
branches appear in source order: keyword constants, numeric/hex literals,
quoted literals, `millis()`/`micros()`, `digitalRead`/`analogRead`, `map`,
`constrain`, `random`, `abs`/`sqrt`, `min`/`max`, `pow`, `isnan`, scope
lookup, and the guarded arithmetic fallback. -/
def evaluateExpr : Nat → Env → Scope → String → Value
  | 0, _, _, _ => .num 0
  | fuel + 1, env, locals, expr0 =>
    let expr := jsTrim expr0
    if expr = "HIGH" then .num 1
    else if expr = "LOW" then .num 0
    else if expr = "true" then .num 1
    else if expr = "false" then .num 0
    else if expr = "INPUT" then .str "INPUT"
    else if expr = "OUTPUT" then .str "OUTPUT"
    else if expr = "INPUT_PULLUP" then .str "INPUT_PULLUP"
    else if isDecLit expr then .num ((jsStringToNumber expr).getD 0)
    else if isHexLit expr then .num ((jsStringToNumber expr).getD 0)
    else if (strStartsWith expr "\"" && strEndsWith expr "\"") ||
        (strStartsWith expr "'" && strEndsWith expr "'") then .str (strInterior expr)
    else if expr = "millis()" then .num (jsFloor (Q.ofNat env.elapsedMs * env.speed))
    else if expr = "micros()" then
      .num (jsFloor (Q.ofNat env.elapsedMs * env.speed * 1000))
    else
      match matchLazy1 "digitalRead" expr with
      | some a => .num (env.pm.digitalRead (valueToKey (evaluateExpr fuel env locals a)))
      | none =>
      match matchLazy1 "analogRead" expr with
      | some a => .num (env.pm.analogRead (valueToKey (evaluateExpr fuel env locals a)))
      | none =>
      match matchMap expr with
      | some (a1, a2, a3, a4, a5) =>
          let v := (evaluateExpr fuel env locals a1).toNum
          let inMin := (evaluateExpr fuel env locals a2).toNum
          let inMax := (evaluateExpr fuel env locals a3).toNum
          let outMin := (evaluateExpr fuel env locals a4).toNum
          let outMax := (evaluateExpr fuel env locals a5).toNum
          .num (if inMax - inMin = 0 then 0
                else jsRound ((v - inMin) * (outMax - outMin) / (inMax - inMin) + outMin))
      | none =>
      match matchConstrain expr with
      | some (a1, a2, a3) =>
          let v := (evaluateExpr fuel env locals a1).toNum
          let lo := (evaluateExpr fuel env locals a2).toNum
          let hi := (evaluateExpr fuel env locals a3).toNum
          .num (Q.max lo (Q.min hi v))
      | none =>
      match matchRandom expr with
      | some (lo?, hi) =>
          let lo := match lo? with
            | some a => (evaluateExpr fuel env locals a).toNum
            | none => 0
          let hi := (evaluateExpr fuel env locals hi).toNum
          .num (jsFloor (env.rand * (hi - lo)) + lo)
      | none =>
      match matchLazy1 "abs" expr with
      | some a => .num (Q.abs (evaluateExpr fuel env locals a).toNum)
      | none =>
      match matchLazy1 "sqrt" expr with
      | some a => .num (jsSqrt (evaluateExpr fuel env locals a).toNum)
      | none =>
      match matchLazy2 "min" expr with
      | some (a, b) =>
          .num (Q.min (evaluateExpr fuel env locals a).toNum (evaluateExpr fuel env locals b).toNum)
      | none =>
      match matchLazy2 "max" expr with
      | some (a, b) =>
          .num (Q.max (evaluateExpr fuel env locals a).toNum (evaluateExpr fuel env locals b).toNum)
      | none =>
      match matchLazy2 "pow" expr with
      | some (a, b) =>
          .num (jsPow (evaluateExpr fuel env locals a).toNum (evaluateExpr fuel env locals b).toNum)
      | none =>
      match matchLazy1 "isnan" expr with
      | some a =>
          match evaluateExpr fuel env locals a with
          | .num _ => .num 0
          | .str s => .num (if (jsStringToNumber s).isNone then 1 else 0)
      | none =>
      if locals.mem expr then (locals.get? expr).getD (.num 0)
      else if env.globals.mem expr then (env.globals.get? expr).getD (.num 0)
      else arithFallback (Scope.merge env.globals locals) expr

/-- Embedding of `ArduinoParser.evaluateCondition` (ArduinoParser.js lines
394-431): `&&` splits first, then `||`, then leading `!`, then the first
comparison operator in priority order, then truthiness. -/
def evaluateCondition : Nat → Env → Scope → String → Bool
  | 0, _, _, _ => false
  | fuel + 1, env, locals, expr0 =>
    let expr := jsTrim expr0
    if containsSub expr "&&" then
      (splitOnSub expr "&&").all (fun p => evaluateCondition fuel env locals (jsTrim p))
    else if containsSub expr "||" then
      (splitOnSub expr "||").any (fun p => evaluateCondition fuel env locals (jsTrim p))
    else if strStartsWith expr "!" then
      !evaluateCondition fuel env locals (jsTrim (strDrop expr 1))
    else
      match findFirstOp expr with
      | some (op, before, after) =>
          applyCmp op (evaluateExpr fuel env locals (jsTrim before))
            (evaluateExpr fuel env locals (jsTrim after))
      | none => (evaluateExpr fuel env locals expr).truthy

/-! ### Engine serial handling and interpreter state -/

/-- One serial event delivered to every subscriber: combined text, category
tag, and elapsed seconds since run start.  The source formats the elapsed
value with `toFixed(3)`; timestamps are integral milliseconds, so the
rational `(now − startTime)/1000` is exactly that printed value. -/
structure SerialEvent where
  text : String
  category : String
  elapsed : Q
deriving DecidableEq

/-- The engine fields `handleSerial` can see: the pending buffer, the run
start timestamp, the current wall-clock time (`Date.now()`), and the speed
multiplier (present in the engine state but — deliberately modelled as in
the source — not consulted by `handleSerial`). -/
structure EngineSerial where
  buffer : String
  startTime : Nat
  now : Nat
  speed : Q
deriving DecidableEq

/-- Embedding of `Engine.handleSerial` (Engine.js lines 119-133): a `print`
emission only appends to the buffer; any other emission flushes buffer plus
text as one event carrying the elapsed wall seconds since start — computed
without the speed multiplier. -/
def handleSerial (es : EngineSerial) (text ty : String) :
    EngineSerial × Option SerialEvent :=
  if ty = "print" then ({ es with buffer := es.buffer ++ text }, none)
  else
    ({ es with buffer := "" },
      some ⟨es.buffer ++ text, ty, Q.ofNat (es.now - es.startTime) / Q.ofNat 1000⟩)

/-- A user-defined function: ordered parameter names and tokenized body. -/
structure Func where
  params : List String
  body : List String
deriving DecidableEq

/-- Lookup in `this.functions`. -/
def lookupFn (fns : List (String × Func)) (name : String) : Option Func :=
  (fns.find? (fun p => p.1 == name)).map (·.2)

/-- The interpreter state threaded through `executeStatement`: globals
(`this.variables`), functions, the pin model with its notification log, the
engine's serial state and delivered events, the running flag, the parser's
speed, the fixed `Math.random` sample, and an instrumentation log of the
statements dispatched (used only to count executions in the theorems; the
source has no such log and no other behaviour depends on it). -/
structure SimState where
  vars : Scope
  fns : List (String × Func)
  pm : PinManager
  notifs : List String
  es : EngineSerial
  events : List SerialEvent
  running : Bool
  speed : Q
  rand : Q
  log : List String

/-- The read-only evaluation context the current state induces. -/
def SimState.env (st : SimState) : Env :=
  ⟨st.pm, st.vars, st.es.now - st.es.startTime, st.speed, st.rand⟩

/-- Route one serial emission through the engine handler. -/
def SimState.emit (st : SimState) (text ty : String) : SimState :=
  let (es', ev) := handleSerial st.es text ty
  { st with es := es', events := st.events ++ ev.toList }

/-- Embedding of `ArduinoParser.splitArgs` (ArduinoParser.js lines 572-588):
split on top-level commas, tracking parenthesis depth; every comma-separated
piece is pushed trimmed, the final piece only when nonempty. -/
def splitArgs (s : String) : List String :=
  go s.data 0 [] []
where
  go : List Char → Int → List Char → List String → List String
    | [], _, cur, acc =>
        let t := jsTrim (String.mk cur.reverse)
        (if t ≠ "" then (t :: acc) else acc).reverse
    | c :: rest, depth, cur, acc =>
        if c = '(' then go rest (depth + 1) (c :: cur) acc
        else if c = ')' then go rest (depth - 1) (c :: cur) acc
        else if c = ',' ∧ depth = 0 then
          go rest depth [] (jsTrim (String.mk cur.reverse) :: acc)
        else go rest depth (c :: cur) acc

/-- Net brace count of a line (`(line.match(/\{/g) || []).length` minus the
closing count). -/
def braceDelta (l : String) : Int :=
  ((l.data.filter (fun c => c = '{')).length : Int) -
    ((l.data.filter (fun c => c = '}')).length : Int)

/-- Match test of `/^(if|else if|else|for|while)\b/`. -/
def startsWithCtrlKw (line : String) : Bool :=
  hasKw "if" || hasKw "else if" || hasKw "else" || hasKw "for" || hasKw "while"
where
  hasKw (kw : String) : Bool :=
    strStartsWith line kw &&
      (match line.data.drop kw.data.length with
       | [] => true
       | c :: _ => !isWordChar c)

/-- Embedding of `ArduinoParser.tokenize` (ArduinoParser.js lines 112-146):
blank lines and bare braces are dropped; a control-keyword line absorbs
following lines until its braces balance (or exactly one following line when
it has no brace) and is emitted as one compound statement; other lines are
emitted with one trailing semicolon stripped.  The fuel is the number of
lines, each step consumes at least one. -/
def tokenize (code : String) : List String :=
  go ((splitOnSub code "\n").length + 1) (splitOnSub code "\n")
where
  absorb : Nat → Int → String → List String → String × List String
    | 0, _, block, rest => (block, rest)
    | _ + 1, _, block, [] => (block, [])
    | fuel + 1, bc, block, l :: rest =>
        if bc > 0 then
          let line := jsTrim l
          absorb fuel (bc + braceDelta l) (block ++ "\n" ++ line) rest
        else (block, l :: rest)
  go : Nat → List String → List String
    | 0, _ => []
    | _ + 1, [] => []
    | fuel + 1, l :: rest =>
        let line := jsTrim l
        if line = "" || line = "\x7b" || line = "\x7d" then go fuel rest
        else if startsWithCtrlKw line then
          if !(line.data.elem '{') then
            match rest with
            | [] => [line]
            | nxt :: rest' => (line ++ "\n" ++ jsTrim nxt) :: go fuel rest'
          else
            let (block, rest') := absorb (rest.length + 1) (braceDelta line) line rest
            block :: go fuel rest'
        else
          let line' := if strEndsWith line ";" then jsTrim (strDropRight line 1) else line
          if line' = "" then go fuel rest else line' :: go fuel rest

/-- Coercion used by `Serial.printf`'s `%d`/`%f` substitutions
(`Number(val)`): numbers unchanged, strings through `ToNumber` (NaN as
`none`). -/
def toNumberOpt : Value → Option Q
  | .num q => some q
  | .str s => jsStringToNumber s

/-- JS `Number.prototype.toFixed(p)` on an exact rational: `p` fractional
digits, ties rounded away from zero (float double-rounding noise is not
modelled; no verified claim formats through `toFixed`). -/
def ratToFixed (q : Q) (p : Nat) : String :=
  let scaled := q * Q.ofInt (intPow10 p)
  let r : Int :=
    if Q.ble 0 scaled then Q.floor (scaled + Q.ofInt 1 / Q.ofInt 2)
    else -(Q.floor (Q.neg scaled + Q.ofInt 1 / Q.ofInt 2))
  if p = 0 then intToStr r
  else
    let a := r.natAbs
    let ip := a / (intPow10 p).toNat
    let fp := a % (intPow10 p).toNat
    (if r < 0 then "-" else "") ++ natToStr ip ++ "." ++ padLeft (natToStr fp) p
where
  padLeft (s : String) (p : Nat) : String :=
    String.mk (List.replicate (p - s.data.length) '0') ++ s

/-- One format substitution of `Serial.printf`
(`%(?:\.(\d+))?([dfsuclx%])`, ArduinoParser.js lines 218-226): `%%` emits a
percent sign and consumes no argument; `%f` with a precision uses
`toFixed`; `%d`/`%u` floor the numeric coercion; every other tag stringifies
the argument; a missing argument is JS `undefined` (`"NaN"` under numeric
coercion, `"undefined"` under `String`). -/
def formatArg (prec : Option Nat) (ty : Char) (val : Option Value) : String :=
  match val with
  | none =>
      if ty = 'f' ∧ prec.isSome then "NaN"
      else if ty = 'd' ∨ ty = 'u' then "NaN"
      else "undefined"
  | some v =>
      if ty = 'f' ∧ prec.isSome then
        match toNumberOpt v with
        | some q => ratToFixed q (prec.getD 0)
        | none => "NaN"
      else if ty = 'd' ∨ ty = 'u' then
        match toNumberOpt v with
        | some q => intToStr (Q.floor q)
        | none => "NaN"
      else v.toStr

/-- The format-specifier scan of `Serial.printf` (the trailing
`.replace(/°/g, '°')` of the source is the identity and is omitted). -/
def formatPrintf (fmt : String) (args : List Value) : String :=
  String.mk (go (fmt.data.length + 1) fmt.data 0)
where
  parseSpec : List Char → Option (Option Nat × Char × List Char)
    | '.' :: rest =>
        let ds := rest.takeWhile (fun c => c.isDigit)
        if ds.isEmpty then none
        else
          match rest.drop ds.length with
          | t :: r2 =>
              if t = 'd' ∨ t = 'f' ∨ t = 's' ∨ t = 'u' ∨ t = 'c' ∨ t = 'l' ∨
                  t = 'x' ∨ t = '%' then
                some (some (ds.foldl (fun a c => a * 10 + (c.toNat - 48)) 0), t, r2)
              else none
          | [] => none
    | t :: r2 =>
        if t = 'd' ∨ t = 'f' ∨ t = 's' ∨ t = 'u' ∨ t = 'c' ∨ t = 'l' ∨
            t = 'x' ∨ t = '%' then some (none, t, r2)
        else none
    | [] => none
  go : Nat → List Char → Nat → List Char
    | 0, cs, _ => cs
    | _ + 1, [], _ => []
    | fuel + 1, c :: rest, idx =>
        if c = '%' then
          match parseSpec rest with
          | some (prec, ty, r2) =>
              if ty = '%' then '%' :: go fuel r2 idx
              else (formatArg prec ty (args.get? idx)).data ++ go fuel r2 (idx + 1)
          | none => c :: go fuel rest idx
        else c :: go fuel rest idx

/-- The ordered statement forms of `executeStatement` (ArduinoParser.js
lines 162-360), as a closed classification: `classify` below performs the
same ordered matching the source's if-chain does, and `execOne` acts on the
outcome. -/
inductive StmtKind where
  | delayK (expr : String)
  | delayUsK (expr : String)
  | serialBeginK
  | printK (isLn : Bool) (arg : String)
  | printfK (fmt : String) (args : Option String)
  | pinModeK (pin mode : String)
  | digitalWriteK (pin raw : String)
  | analogWriteK (pin expr : String)
  | ledcWriteK (ch duty : String)
  | toneK (pin freq : String) (dur : Option String)
  | noToneK (pin : String)
  | assignK (name op expr : String)
  | incK (name : String) (inc : Bool)
  | ifElseK
  | forK (init cond step body : String)
  | whileK (cond body : String)
  | callK (name args : String)
  | skipK
deriving DecidableEq

/-- The ordered matching of `executeStatement`: the first matching form
wins; a function-call-shaped statement whose name is not a defined function
falls through to silence, like every other unmatched statement. -/
def classify (fns : List (String × Func)) (stmt : String) : StmtKind :=
  match matchGreedy1 "delay" stmt with
  | some e => .delayK e
  | none =>
  match matchGreedy1 "delayMicroseconds" stmt with
  | some e => .delayUsK e
  | none =>
  if isSerialBegin stmt then .serialBeginK
  else
  match matchPrint stmt with
  | some (isLn, arg) => .printK isLn arg
  | none =>
  match matchPrintf stmt with
  | some (fmt, args) => .printfK fmt args
  | none =>
  match matchLazy2 "pinMode" stmt with
  | some (pin, mode) => .pinModeK pin mode
  | none =>
  match matchLazy2 "digitalWrite" stmt with
  | some (pin, raw) => .digitalWriteK pin raw
  | none =>
  match matchLazy2 "analogWrite" stmt with
  | some (pin, e) => .analogWriteK pin e
  | none =>
  match matchLazy2 "ledcWrite" stmt with
  | some (ch, duty) => .ledcWriteK ch duty
  | none =>
  match matchToneFull stmt with
  | some (pin, freq, dur) => .toneK pin freq dur
  | none =>
  match matchLazy1 "noTone" stmt with
  | some pin => .noToneK pin
  | none =>
  match matchAssign stmt with
  | some (name, op, e) => .assignK name op e
  | none =>
  match matchInc stmt with
  | some (name, inc) => .incK name inc
  | none =>
  if strStartsWith stmt "if" || strStartsWith stmt "else if" ||
      strStartsWith stmt "else" then .ifElseK
  else
  match matchFor stmt with
  | some (init, cond, step, body) => .forK init cond step body
  | none =>
  match matchWhile stmt with
  | some (cond, body) => .whileK cond body
  | none =>
  match matchFuncCall stmt with
  | some (name, args) =>
      if (lookupFn fns name).isSome then .callK name args else .skipK
  | none => .skipK

/-- Positional parameter binding of a user-defined call (ArduinoParser.js
lines 353-356): `funcLocals[p] = args[i] ? evaluateExpr(args[i]) : 0` — a
missing or empty argument binds 0. -/
def bindParams (fuel : Nat) (env : Env) (locals : Scope) (params : List String)
    (args : List String) : Scope :=
  go params 0 []
where
  go : List String → Nat → Scope → Scope
    | [], _, acc => acc
    | p :: ps, i, acc =>
        let v := match args.get? i with
          | some a => if a ≠ "" then evaluateExpr fuel env locals a else .num 0
          | none => .num 0
        go ps (i + 1) (acc.set p v)

/-- Strip one trailing semicolon (`forMatch[1].replace(/;$/, '')`). -/
def stripTrailSemi (s : String) : String :=
  if strEndsWith s ";" then strDropRight s 1 else s

/-- The `(target[name] || 0)` read used by compound assignment and
increment: a falsy prior value (missing, 0, empty string) becomes 0. -/
def priorOrZero (v : Option Value) : Value :=
  match v with
  | some v => if v.truthy then v else .num 0
  | none => .num 0

mutual

/-- Embedding of `ArduinoParser.executeStatement` (ArduinoParser.js lines
162-360), fuel-indexed (exhaustion, never reached at the fuels the theorems
use, leaves the state unchanged).  The returned scope is the caller's local
table after the statement (JS mutates `localVars` in place).  `delay` and
`delayMicroseconds` evaluate their argument and suspend; suspension has no
state effect, and its timed behaviour is modelled separately (see
`delayStopModel`). -/
def execOne : Nat → String → Scope → SimState → Scope × SimState
  | 0, _, locals, st => (locals, st)
  | fuel + 1, stmt, locals, st =>
    if !st.running then (locals, st)
    else
      let st := { st with log := st.log ++ [stmt] }
      match classify st.fns stmt with
      | .delayK e =>
          let _ms := evaluateExpr fuel st.env locals e
          (locals, st)
      | .delayUsK e =>
          let _us := evaluateExpr fuel st.env locals e
          (locals, st)
      | .serialBeginK => (locals, st.emit "[System] Serial initialized" "system")
      | .printK isLn rawArg =>
          let arg := jsTrim rawArg
          let output :=
            if arg = "" then ""
            else if strStartsWith arg "\"" && strEndsWith arg "\"" then strInterior arg
            else if strStartsWith arg "'" && strEndsWith arg "'" then strInterior arg
            else (evaluateExpr fuel st.env locals arg).toStr
          (locals, st.emit (expandEscapes output) (if isLn then "println" else "print"))
      | .printfK fmt argsRaw =>
          let args := match argsRaw with
            | some a => (splitArgs a).map (fun x => evaluateExpr fuel st.env locals x)
            | none => []
          (locals, st.emit (expandEscapes (formatPrintf fmt args)) "printf")
      | .pinModeK pinE modeRaw =>
          let pin := evaluateExpr fuel st.env locals pinE
          let (pm', ns) := st.pm.pinMode (valueToKey pin) (jsTrim modeRaw)
          (locals, { st with pm := pm', notifs := st.notifs ++ ns })
      | .digitalWriteK pinE raw0 =>
          let pin := evaluateExpr fuel st.env locals pinE
          let raw := jsTrim raw0
          let v : Value :=
            if raw = "HIGH" then .num 1
            else if raw = "LOW" then .num 0
            else evaluateExpr fuel st.env locals raw
          let (pm', ns) := st.pm.digitalWrite (valueToKey pin) v
          (locals, { st with pm := pm', notifs := st.notifs ++ ns })
      | .analogWriteK pinE vE =>
          let pin := evaluateExpr fuel st.env locals pinE
          let v := evaluateExpr fuel st.env locals vE
          let (pm', ns) := st.pm.analogWrite (valueToKey pin) v.toNum
          (locals, { st with pm := pm', notifs := st.notifs ++ ns })
      | .ledcWriteK chE dE =>
          let ch := evaluateExpr fuel st.env locals chE
          let d := evaluateExpr fuel st.env locals dE
          let (pm', ns) := st.pm.analogWrite (valueToKey ch) d.toNum
          (locals, { st with pm := pm', notifs := st.notifs ++ ns })
      | .toneK pinE freqE _dur =>
          let pin := evaluateExpr fuel st.env locals pinE
          let _freq := evaluateExpr fuel st.env locals freqE
          let (pm', ns) := st.pm.analogWrite (valueToKey pin) (Q.ofNat 128)
          (locals, { st with pm := pm', notifs := st.notifs ++ ns })
      | .noToneK pinE =>
          let pin := evaluateExpr fuel st.env locals pinE
          let (pm', ns) := st.pm.analogWrite (valueToKey pin) (Q.ofNat 0)
          (locals, { st with pm := pm', notifs := st.notifs ++ ns })
      | .assignK name op e =>
          let value := evaluateExpr fuel st.env locals (jsTrim e)
          let inLocals := locals.mem name
          let prior := priorOrZero (if inLocals then locals.get? name else st.vars.get? name)
          let newv :=
            if op = "=" then value
            else if op = "+=" then jsAdd prior value
            else if op = "-=" then jsSub prior value
            else if op = "*=" then jsMul prior value
            else jsDiv prior value
          if inLocals then (locals.set name newv, st)
          else (locals, { st with vars := st.vars.set name newv })
      | .incK name isInc =>
          let inLocals := locals.mem name
          let prior := priorOrZero (if inLocals then locals.get? name else st.vars.get? name)
          let newv := if isInc then jsAdd prior (.num 1) else jsSub prior (.num 1)
          if inLocals then (locals.set name newv, st)
          else (locals, { st with vars := st.vars.set name newv })
      | .ifElseK => execIfElse fuel stmt locals st
      | .forK init cond step body =>
          let (locals1, st1) := execOne fuel (stripTrailSemi init) locals st
          forLoop fuel cond step body locals1 st1
      | .whileK cond body => whileLoop fuel cond body locals st
      | .callK name args =>
          match lookupFn st.fns name with
          | some f =>
              let argList := if args = "" then [] else splitArgs args
              let funcLocals := bindParams fuel st.env locals f.params argList
              let (_, st') := execList fuel f.body (locals.merge funcLocals) st
              (locals, st')
          | none => (locals, st)
      | .skipK => (locals, st)

/-- Embedding of `ArduinoParser.executeIfElse` (ArduinoParser.js lines
365-389). -/
def execIfElse : Nat → String → Scope → SimState → Scope × SimState
  | 0, _, locals, st => (locals, st)
  | fuel + 1, stmt, locals, st =>
      match matchIfChain stmt with
      | some (cond, body, rest0) =>
          let rest := jsTrim rest0
          if evaluateCondition fuel st.env locals cond then
            execList fuel (tokenize body) locals st
          else if strStartsWith rest "else if" || strStartsWith rest "else" then
            execIfElse fuel rest locals st
          else (locals, st)
      | none =>
          match matchElse stmt with
          | some body => execList fuel (tokenize body) locals st
          | none => (locals, st)

/-- Embedding of the for-loop body (ArduinoParser.js lines 326-331): while
running and the condition holds, re-tokenize and execute the body, then the
step (the per-iteration `sleep(1)` has no state effect). -/
def forLoop : Nat → String → String → String → Scope → SimState → Scope × SimState
  | 0, _, _, _, locals, st => (locals, st)
  | fuel + 1, cond, step, body, locals, st =>
      if st.running && evaluateCondition fuel st.env locals cond then
        let (locals1, st1) := execList fuel (tokenize body) locals st
        let (locals2, st2) := execOne fuel step locals1 st1
        forLoop fuel cond step body locals2 st2
      else (locals, st)

/-- Embedding of the while-loop body (ArduinoParser.js lines 338-344; the
every-100th-iteration `sleep(1)` has no state effect). -/
def whileLoop : Nat → String → String → Scope → SimState → Scope × SimState
  | 0, _, _, locals, st => (locals, st)
  | fuel + 1, cond, body, locals, st =>
      if st.running && evaluateCondition fuel st.env locals cond then
        let (locals1, st1) := execList fuel (tokenize body) locals st
        whileLoop fuel cond body locals1 st1
      else (locals, st)

/-- Embedding of `ArduinoParser.execute` (ArduinoParser.js lines 151-157):
run the statements in order, stopping as soon as the running flag is
cleared. -/
def execList : Nat → List String → Scope → SimState → Scope × SimState
  | 0, _, locals, st => (locals, st)
  | _ + 1, [], locals, st => (locals, st)
  | fuel + 1, stmt :: rest, locals, st =>
      if !st.running then (locals, st)
      else
        let (locals1, st1) := execOne fuel stmt locals st
        execList fuel rest locals1 st1

end

/-! ### Run-loop lifecycle model (Engine.start / Engine.stop)

`Engine.start` (Engine.js lines 51-82) wraps parse, `setup`, and the
repeated `loop` bodies in one try/catch.  The model below abstracts each
full body execution to an outcome (normal completion or a thrown message)
and replays the control flow of `start` exactly: one `running`
notification, loop bodies consumed while the running flag holds, a single
catch emitting one `[Error] `-prefixed serial event (through
`handleSerial`, so any pending buffer is flushed into it) and one `error`
status, the `stopped` status only when the flag was cleared externally.
Exhaustion of the outcome list models the external `stop()` having cleared
the flag before the next `while (this.running)` test. -/

/-- Outcome of executing one complete statement sequence: normal completion
or an exception carrying `err.message`. -/
inductive ExecOutcome where
  | ok
  | err (msg : String)
deriving DecidableEq

/-- The loop phase of `startModel`: consume successful iterations; a thrown
iteration triggers the catch; an exhausted list is the externally issued
stop. -/
def startLoop (es : EngineSerial) : List ExecOutcome →
    List SerialEvent × List String × Bool
  | [] => ([], ["running", "stopped"], false)
  | .ok :: rest => startLoop es rest
  | .err m :: _ =>
      let (_, ev) := handleSerial es ("[Error] " ++ m) "error"
      (ev.toList, ["running", "error"], true)

/-- Model of `Engine.start`: status notifications in order, the serial
events the top-level handler emits, and the final value of the running
flag (`es` is the engine serial state at the moment of the failure; the
buffer it holds is flushed into the error event). -/
def startModel (es : EngineSerial) (setupOutcome : ExecOutcome)
    (loopOutcomes : List ExecOutcome) : List SerialEvent × List String × Bool :=
  match setupOutcome with
  | .err m =>
      let (_, ev) := handleSerial es ("[Error] " ++ m) "error"
      (ev.toList, ["running", "error"], true)
  | .ok => startLoop es loopOutcomes

/-! ### Timed model of an in-flight delay and stop() (C3)

`ArduinoParser.sleep` (ArduinoParser.js lines 612-614) is
`setTimeout(resolve, Math.max(1, ms))`: it holds no reference to the
running flag and nothing in the program ever cancels the timeout, so the
promise resolves exactly `max(1, ms)` ms after the call regardless of any
`stop()` in between.  `delay(expr)` suspends for `ms / speed`
(lines 166-171).  `Engine.stop` (Engine.js lines 87-91) synchronously
clears both running flags and notifies status `stopped`.  On resumption,
`execute` (line 153) and `executeStatement` (line 163) observe the cleared
flag and run nothing further. -/

/-- Wall-clock resolution time of `sleep(ms)` entered at `callTime`
(`setTimeout` truncates a fractional delay to whole milliseconds). -/
def sleepWakeTime (callTime : Nat) (ms : Q) : Nat :=
  callTime + (Q.trunc (Q.max (Q.ofNat 1) ms)).toNat

/-- Outcome of the C3 scenario: when the external stop fires (with its
immediate `stopped` status), when the suspension actually resumes, and
which of the statements queued after the delay still execute. -/
structure DelayStopResult where
  stopStatusAt : Option Nat
  resumeAt : Nat
  executedAfterResume : List String
deriving DecidableEq

/-- Discrete-event model of `delay(D)` entered at time 0 with a `stop()`
issued at `tStop`: the suspension's wake time is a pure function of the
entry time and duration (the timeout is never cancelled and `sleep` never
reads the flag); a stop before the wake time logs its immediate `stopped`
status and the resumed execution, finding the flag cleared, runs none of
`rest`. -/
def delayStopModel (d speed : Q) (tStop : Nat) (rest : List String) :
    DelayStopResult :=
  let due := sleepWakeTime 0 (d / speed)
  if tStop < due then
    { stopStatusAt := some tStop, resumeAt := due, executedAfterResume := [] }
  else
    { stopStatusAt := none, resumeAt := due, executedAfterResume := rest }

/-! ### Circuit JSON (Engine.exportCircuit / Engine.importCircuit)

`exportCircuit` (Engine.js lines 177-193) is `JSON.stringify(…, null, 2)`
over a structure with fixed keys; `importCircuit` (lines 198-205) is
`JSON.parse` in a try/catch that reports a parse failure as one serial
error event and returns null.  The JSON value space is modelled with
integer numbers (floats do not kernel-compute; every claim-relevant field
is exact), and the host's JSON builtins are modelled by a renderer and
parser for exactly the grammar `JSON.stringify` emits (objects, arrays,
strings with standard escapes, integers, literals, the four JSON
whitespace characters). -/

mutual

/-- A JSON value (numbers restricted to integers, see above). -/
inductive Json where
  | null
  | bool (b : Bool)
  | num (n : Int)
  | str (s : String)
  | arr (xs : JsonList)
  | obj (fs : JsonFields)

/-- Array elements. -/
inductive JsonList where
  | nil
  | cons (hd : Json) (tl : JsonList)

/-- Object fields in insertion order. -/
inductive JsonFields where
  | fnil
  | fcons (k : String) (v : Json) (tl : JsonFields)

end

mutual

/-- Node count of a JSON value (the fuel bound of the renderer and
parser). -/
def Json.count : Json → Nat
  | .null | .bool _ | .num _ | .str _ => 1
  | .arr xs => JsonList.count xs + 1
  | .obj fs => JsonFields.count fs + 1

/-- Node count of an element list. -/
def JsonList.count : JsonList → Nat
  | .nil => 1
  | .cons v tl => Json.count v + JsonList.count tl + 1

/-- Node count of a field list. -/
def JsonFields.count : JsonFields → Nat
  | .fnil => 1
  | .fcons _ v tl => Json.count v + JsonFields.count tl + 1

end

/-- Lowercase hexadecimal digit. -/
def hexDigitChar (n : Nat) : Char := Nat.digitChar n

/-- The escape `JSON.stringify` applies to one string character: quote and
backslash are escaped, the five short control escapes are used where they
exist, other control characters become `\u00XX`, everything else is passed
through. -/
def escapeChar (c : Char) : List Char :=
  if c = '"' then ['\\', '"']
  else if c = '\\' then ['\\', '\\']
  else if c = '\x08' then ['\\', 'b']
  else if c = '\x0c' then ['\\', 'f']
  else if c = '\n' then ['\\', 'n']
  else if c = '\r' then ['\\', 'r']
  else if c = '\t' then ['\\', 't']
  else if c.toNat < 32 then
    ['\\', 'u', '0', '0', hexDigitChar (c.toNat / 16), hexDigitChar (c.toNat % 16)]
  else [c]

/-- A rendered JSON string literal, quotes included. -/
def renderString (s : String) : List Char :=
  '"' :: (s.data.foldr (fun c acc => escapeChar c ++ acc) ['"'])

/-- `n` spaces (the indentation unit of `JSON.stringify(…, null, 2)` is
two). -/
def spaces (n : Nat) : List Char := List.replicate n ' '

mutual

/-- The exact text `JSON.stringify(value, null, 2)` produces at indentation
level `ind`, fuel-indexed (the entry point `render` supplies sufficient
fuel). -/
def renderJF : Nat → Nat → Json → List Char
  | 0, _, _ => []
  | fuel + 1, ind, j =>
      match j with
      | .null => "null".data
      | .bool true => "true".data
      | .bool false => "false".data
      | .num n => (intToStr n).data
      | .str s => renderString s
      | .arr .nil => "[]".data
      | .arr (.cons v tl) =>
          '[' :: '\n' :: (renderItemsF fuel (ind + 2) v tl ++ '\n' :: spaces ind ++ [']'])
      | .obj .fnil => "\x7b\x7d".data
      | .obj (.fcons k v tl) =>
          '{' :: '\n' :: (renderFieldsF fuel (ind + 2) k v tl ++ '\n' :: spaces ind ++ ['\x7d'])

/-- Comma-and-newline separated array items, each on its own indented
line. -/
def renderItemsF : Nat → Nat → Json → JsonList → List Char
  | 0, _, _, _ => []
  | fuel + 1, ind, v, .nil => spaces ind ++ renderJF fuel ind v
  | fuel + 1, ind, v, .cons v' tl =>
      spaces ind ++ renderJF fuel ind v ++ ',' :: '\n' :: renderItemsF fuel ind v' tl

/-- Comma-and-newline separated object fields. -/
def renderFieldsF : Nat → Nat → String → Json → JsonFields → List Char
  | 0, _, _, _, _ => []
  | fuel + 1, ind, k, v, .fnil => spaces ind ++ renderString k ++ ':' :: ' ' :: renderJF fuel ind v
  | fuel + 1, ind, k, v, .fcons k' v' tl =>
      spaces ind ++ renderString k ++ ':' :: ' ' :: renderJF fuel ind v ++
        ',' :: '\n' :: renderFieldsF fuel ind k' v' tl

end

/-- `JSON.stringify(value, null, 2)`. -/
def render (ind : Nat) (j : Json) : List Char := renderJF (Json.count j) ind j

/-- The four JSON whitespace characters. -/
def isJWs (c : Char) : Bool := c = ' ' || c = '\t' || c = '\n' || c = '\r'

/-- Skip JSON whitespace. -/
def skipJWs (cs : List Char) : List Char := cs.dropWhile isJWs

/-- Value of a hexadecimal digit (`none` otherwise). -/
def hexVal? (c : Char) : Option Nat :=
  if '0' ≤ c && c ≤ '9' then some (c.toNat - 48)
  else if 'a' ≤ c && c ≤ 'f' then some (c.toNat - 87)
  else if 'A' ≤ c && c ≤ 'F' then some (c.toNat - 55)
  else none

/-- JSON string-body parser (after the opening quote), fuel-indexed by the
character count.  `\u` escapes outside the basic plane (surrogate pairs)
are not modelled; the renderer never emits them. -/
def parseStringBody : Nat → List Char → List Char → Option (String × List Char)
  | 0, _, _ => none
  | fuel + 1, cs, acc =>
      match cs with
      | [] => none
      | '"' :: rest => some (String.mk acc.reverse, rest)
      | '\\' :: e :: rest =>
          if e = '"' then parseStringBody fuel rest ('"' :: acc)
          else if e = '\\' then parseStringBody fuel rest ('\\' :: acc)
          else if e = '/' then parseStringBody fuel rest ('/' :: acc)
          else if e = 'b' then parseStringBody fuel rest ('\x08' :: acc)
          else if e = 'f' then parseStringBody fuel rest ('\x0c' :: acc)
          else if e = 'n' then parseStringBody fuel rest ('\n' :: acc)
          else if e = 'r' then parseStringBody fuel rest ('\r' :: acc)
          else if e = 't' then parseStringBody fuel rest ('\t' :: acc)
          else if e = 'u' then
            match rest with
            | h1 :: h2 :: h3 :: h4 :: rest' =>
                match hexVal? h1, hexVal? h2, hexVal? h3, hexVal? h4 with
                | some a, some b, some c, some d =>
                    parseStringBody fuel rest'
                      (Char.ofNat (((a * 16 + b) * 16 + c) * 16 + d) :: acc)
                | _, _, _, _ => none
            | _ => none
          else none
      | '\\' :: [] => none
      | c :: rest => parseStringBody fuel rest (c :: acc)

/-- Head-character test (used by the parser so that its branching is plain
boolean logic). -/
def headIs (c : Char) : List Char → Bool
  | c' :: _ => c' = c
  | [] => false

/-- Literal-prefix test, recursing on the literal first (so that it
computes on a symbolic remainder). -/
def isPre : List Char → List Char → Bool
  | [], _ => true
  | a :: as, bs =>
      match bs with
      | [] => false
      | b :: bs' => if a = b then isPre as bs' else false

/-- JSON integer parser (fractions and exponents are outside the modelled
grammar; the renderer never emits them). -/
def parseJNum (cs : List Char) : Option (Int × List Char) :=
  let neg := headIs '-' cs
  let cs' := if neg then cs.drop 1 else cs
  let ds := cs'.takeWhile (fun c => c.isDigit)
  if ds.isEmpty then none
  else
    let m : Nat := ds.foldl (fun a c => a * 10 + (c.toNat - 48)) 0
    some (if neg then -(m : Int) else (m : Int), cs'.drop ds.length)

mutual

/-- JSON value parser, fuel-indexed (one unit per nested value). -/
def parseJ : Nat → List Char → Option (Json × List Char)
  | 0, _ => none
  | fuel + 1, cs0 =>
      let cs := skipJWs cs0
      if isPre "null".data cs then some (.null, cs.drop 4)
      else if isPre "true".data cs then some (.bool true, cs.drop 4)
      else if isPre "false".data cs then some (.bool false, cs.drop 5)
      else
        match cs with
        | [] => none
        | c :: r =>
            if c = '"' then
              match parseStringBody (r.length + 1) r [] with
              | some (s, r') => some (.str s, r')
              | none => none
            else if c = '[' then
              if headIs ']' (skipJWs r) then some (.arr .nil, (skipJWs r).drop 1)
              else
                match parseItems fuel r with
                | some (xs, r2) => some (.arr xs, r2)
                | none => none
            else if c = '{' then
              if headIs '\x7d' (skipJWs r) then some (.obj .fnil, (skipJWs r).drop 1)
              else
                match parseFields fuel r with
                | some (fs, r2) => some (.obj fs, r2)
                | none => none
            else
              match parseJNum (c :: r) with
              | some (n, r') => some (.num n, r')
              | none => none

/-- Array items up to and including the closing bracket. -/
def parseItems : Nat → List Char → Option (JsonList × List Char)
  | 0, _ => none
  | fuel + 1, cs =>
      match parseJ fuel cs with
      | some (v, r) =>
          (match skipJWs r with
           | ',' :: r2 =>
               match parseItems fuel r2 with
               | some (tl, r3) => some (.cons v tl, r3)
               | none => none
           | ']' :: r2 => some (.cons v .nil, r2)
           | _ => none)
      | none => none

/-- Object fields up to and including the closing brace. -/
def parseFields : Nat → List Char → Option (JsonFields × List Char)
  | 0, _ => none
  | fuel + 1, cs =>
      match skipJWs cs with
      | '"' :: r =>
          (match parseStringBody (r.length + 1) r [] with
           | some (k, r1) =>
               (match skipJWs r1 with
                | ':' :: r2 =>
                    (match parseJ fuel r2 with
                     | some (v, r3) =>
                         (match skipJWs r3 with
                          | ',' :: r4 =>
                              match parseFields fuel r4 with
                              | some (tl, r5) => some (.fcons k v tl, r5)
                              | none => none
                          | '\x7d' :: r4 => some (.fcons k v .fnil, r4)
                          | _ => none)
                     | none => none)
                | _ => none)
           | none => none)
      | _ => none

end

/-- Model of `JSON.parse`: parse one value and require only whitespace to
remain. -/
def jsonParse (s : String) : Option Json :=
  match parseJ (s.data.length + 1) s.data with
  | some (j, rest) => if skipJWs rest = [] then some j else none
  | none => none

/-- JS truthiness of a JSON value (for the `c.attrs || {}` default in
`exportCircuit`; objects and arrays are always truthy). -/
def jsonTruthy : Json → Bool
  | .null => false
  | .bool b => b
  | .num n => n != 0
  | .str s => s != ""
  | .arr _ => true
  | .obj _ => true

/-- A circuit component as `exportCircuit` consumes it; a missing `attrs`
(JS `undefined`) is modelled as `Json.null`, which the `|| {}` default
treats identically. -/
structure Component where
  ctype : Json
  id : Json
  attrs : Json
  position : Json

/-- A wire as `exportCircuit` consumes it (`from` is a Lean keyword, hence
`wfrom`/`wto`). -/
structure Wire where
  wfrom : Json
  wto : Json
  color : Json

/-- The part object `exportCircuit` builds from a component (Engine.js
lines 181-186). -/
def partJson (c : Component) : Json :=
  .obj (.fcons "type" c.ctype (.fcons "id" c.id
    (.fcons "attrs" (if jsonTruthy c.attrs then c.attrs else .obj .fnil)
    (.fcons "position" c.position .fnil))))

/-- The connection object `exportCircuit` builds from a wire (Engine.js
lines 187-191). -/
def connJson (w : Wire) : Json :=
  .obj (.fcons "from" w.wfrom (.fcons "to" w.wto (.fcons "color" w.color .fnil)))

/-- JSON array from a Lean list. -/
def listToJsonList : List Json → JsonList
  | [] => .nil
  | j :: js => .cons j (listToJsonList js)

/-- The complete circuit object `exportCircuit` stringifies. -/
def circuitJson (components : List Component) (wires : List Wire) : Json :=
  .obj (.fcons "version" (.num 1) (.fcons "editor" (.str "esp32-simulator")
    (.fcons "parts" (.arr (listToJsonList (components.map partJson)))
    (.fcons "connections" (.arr (listToJsonList (wires.map connJson))) .fnil))))

/-- Embedding of `Engine.exportCircuit` (Engine.js lines 177-193):
`JSON.stringify(circuit, null, 2)`. -/
def exportCircuit (components : List Component) (wires : List Wire) : String :=
  String.mk (render 0 (circuitJson components wires))

/-- The host-specific `e.message` text of a JSON parse failure
(not modelled precisely; only the event's existence, category, and
`[Error]` prefix matter to the claims). -/
def importErrMsg : String := "Unexpected token"

/-- Embedding of `Engine.importCircuit` (Engine.js lines 198-205):
`JSON.parse` in a try/catch; a failure reports one serial error event (via
`handleSerial`, flushing any pending buffer into it) and returns null. -/
def importCircuit (es : EngineSerial) (json : String) :
    Option Json × EngineSerial × List SerialEvent :=
  match jsonParse json with
  | some j => (some j, es, [])
  | none =>
      let (es', ev) := handleSerial es ("[Error] Invalid circuit file: " ++ importErrMsg) "error"
      (none, es', ev.toList)

/-- Field lookup in an object value. -/
def getFieldF : JsonFields → String → Option Json
  | .fnil, _ => none
  | .fcons k' v tl, k => if k' = k then some v else getFieldF tl k

/-- Field lookup in a JSON value. -/
def getField : Json → String → Option Json
  | .obj fs, k => getFieldF fs k
  | _, _ => none

/-- The conjunction of all guard failures on the way to `evaluateExpr`'s
final arithmetic fallback, over the already-trimmed expression: none of the
keyword constants, literal forms, built-in call patterns, or scope lookups
applies.  This names precisely the branch chain of ArduinoParser.js lines
441-538; when it holds, evaluation reaches the best-effort fallback of
lines 540-566. -/
def evalGuardsFail (env : Env) (locals : Scope) (expr : String) : Bool :=
  expr != "HIGH" && expr != "LOW" && expr != "true" && expr != "false" &&
  expr != "INPUT" && expr != "OUTPUT" && expr != "INPUT_PULLUP" &&
  !isDecLit expr && !isHexLit expr &&
  !((strStartsWith expr "\"" && strEndsWith expr "\"") ||
    (strStartsWith expr "'" && strEndsWith expr "'")) &&
  expr != "millis()" && expr != "micros()" &&
  (matchLazy1 "digitalRead" expr).isNone && (matchLazy1 "analogRead" expr).isNone &&
  (matchMap expr).isNone && (matchConstrain expr).isNone && (matchRandom expr).isNone &&
  (matchLazy1 "abs" expr).isNone && (matchLazy1 "sqrt" expr).isNone &&
  (matchLazy2 "min" expr).isNone && (matchLazy2 "max" expr).isNone &&
  (matchLazy2 "pow" expr).isNone && (matchLazy1 "isnan" expr).isNone &&
  !locals.mem expr && !env.globals.mem expr

/-- A fresh interpreter state over the given globals: freshly constructed
pins, empty serial buffer, run just started (elapsed 0), speed 1, running. -/
def freshState (globals : Scope) : SimState :=
  { vars := globals, fns := [], pm := PinManager.init, notifs := []
    es := { buffer := "", startTime := 0, now := 0, speed := 1 }
    events := [], running := true, speed := 1, rand := 0, log := [] }

/-- The concrete C8 statement. -/
def forDemoStmt : String := "for (int i = 0; i < 5; i++) { x += 1; }"

/-- Updating the table at one key leaves every other key unchanged. -/
theorem setPin_pins_ne (pm : PinManager) (k0 : String) (p : Pin) (k : String)
    (h : k ≠ k0) : (pm.setPin k0 p).pins k = pm.pins k := by
  simp [PinManager.setPin, h]

/-- Every operation only modifies the table entry at its own key. -/
theorem applyOp_frame (pm : PinManager) (op : PMOp) (k : String)
    (hk : op.key ≠ k) : ((pm.applyOp op).1).pins k = pm.pins k := by
  cases op with
  | pinMode kk m =>
      simp only [PMOp.key] at hk
      simp only [PinManager.applyOp, PinManager.pinMode]
      cases h : pm.pins kk
      · rfl
      · exact setPin_pins_ne pm kk _ k (Ne.symm hk)
  | digitalWrite kk v =>
      simp only [PMOp.key] at hk
      simp only [PinManager.applyOp, PinManager.digitalWrite]
      cases h : pm.pins kk
      · rfl
      · exact setPin_pins_ne pm kk _ k (Ne.symm hk)
  | analogWrite kk v =>
      simp only [PMOp.key] at hk
      simp only [PinManager.applyOp, PinManager.analogWrite]
      cases h : pm.pins kk
      · rfl
      · exact setPin_pins_ne pm kk _ k (Ne.symm hk)
  | setAnalogValue kk v =>
      simp only [PMOp.key] at hk
      simp only [PinManager.applyOp, PinManager.setAnalogValue]
      cases h : pm.pins kk
      · rfl
      · exact setPin_pins_ne pm kk _ k (Ne.symm hk)
  | connectPin kk cid pn =>
      simp only [PMOp.key] at hk
      simp only [PinManager.applyOp, PinManager.connectPin]
      cases h : pm.pins kk
      · rfl
      · exact setPin_pins_ne pm kk _ k (Ne.symm hk)
  | disconnectPin kk =>
      simp only [PMOp.key] at hk
      simp only [PinManager.applyOp, PinManager.disconnectPin]
      cases h : pm.pins kk
      · rfl
      · exact setPin_pins_ne pm kk _ k (Ne.symm hk)

/-- `connectPin`/`disconnectPin` never change mode or value of any pin. -/
theorem applyOp_connect_modeValue (pm : PinManager) (op : PMOp) (k : String)
    (hop : (∃ kk cid pn, op = .connectPin kk cid pn) ∨ (∃ kk, op = .disconnectPin kk)) :
    (((pm.applyOp op).1).pins k).map (fun p => (p.mode, p.value)) =
      (pm.pins k).map (fun p => (p.mode, p.value)) := by
  rcases hop with ⟨kk, cid, pn, rfl⟩ | ⟨kk, rfl⟩ <;>
    simp only [PinManager.applyOp, PinManager.connectPin, PinManager.disconnectPin] <;>
    cases h : pm.pins kk <;>
    simp_all [PinManager.setPin] <;>
    split <;> simp_all

/-- Mode and value of the rails are preserved by any rail-sparing operation. -/
theorem applyOp_preserves_rails (pm : PinManager) (op : PMOp) (hop : op.sparesRails)
    (r : String) (hr : r ∈ railKeys) :
    (((pm.applyOp op).1).pins r).map (fun p => (p.mode, p.value)) =
      (pm.pins r).map (fun p => (p.mode, p.value)) := by
  cases op with
  | connectPin kk cid pn => exact applyOp_connect_modeValue pm _ r (Or.inl ⟨kk, cid, pn, rfl⟩)
  | disconnectPin kk => exact applyOp_connect_modeValue pm _ r (Or.inr ⟨kk, rfl⟩)
  | pinMode kk m =>
      have h1 : kk ≠ r := by simp only [PMOp.sparesRails, PMOp.key] at hop; exact fun h => hop (h ▸ hr)
      rw [applyOp_frame pm (PMOp.pinMode kk m) r h1]
  | digitalWrite kk v =>
      have h1 : kk ≠ r := by simp only [PMOp.sparesRails, PMOp.key] at hop; exact fun h => hop (h ▸ hr)
      rw [applyOp_frame pm (PMOp.digitalWrite kk v) r h1]
  | analogWrite kk v =>
      have h1 : kk ≠ r := by simp only [PMOp.sparesRails, PMOp.key] at hop; exact fun h => hop (h ▸ hr)
      rw [applyOp_frame pm (PMOp.analogWrite kk v) r h1]
  | setAnalogValue kk v =>
      have h1 : kk ≠ r := by simp only [PMOp.sparesRails, PMOp.key] at hop; exact fun h => hop (h ▸ hr)
      rw [applyOp_frame pm (PMOp.setAnalogValue kk v) r h1]

/-- An operation targeting an unknown key never adds it to the table. -/
theorem applyOp_unknown_stays (pm : PinManager) (op : PMOp) (k : String)
    (hk : pm.pins k = none) : ((pm.applyOp op).1).pins k = none := by
  by_cases h : op.key = k
  · cases op <;> simp only [PMOp.key] at h <;> subst h <;>
      simp only [PinManager.applyOp, PinManager.pinMode, PinManager.digitalWrite,
        PinManager.analogWrite, PinManager.setAnalogValue, PinManager.connectPin,
        PinManager.disconnectPin, hk]
  · rw [applyOp_frame pm op k h]; exact hk

/-- Rails keep mode and value across any sequence of rail-sparing operations. -/
theorem applyOps_preserves_rails (ops : List PMOp) (pm : PinManager)
    (h : ∀ op ∈ ops, op.sparesRails) (r : String) (hr : r ∈ railKeys) :
    ((pm.applyOps ops).pins r).map (fun p => (p.mode, p.value)) =
      (pm.pins r).map (fun p => (p.mode, p.value)) := by
  induction ops generalizing pm with
  | nil => rfl
  | cons op ops ih =>
      rw [PinManager.applyOps,
        ih ((pm.applyOp op).1) (fun o ho => h o (List.mem_cons_of_mem op ho)),
        applyOp_preserves_rails pm op (h op (List.mem_cons_self op ops)) r hr]

/-- Unknown keys stay absent across any sequence of operations. -/
theorem applyOps_unknown_stays (ops : List PMOp) (pm : PinManager) (k : String)
    (hk : pm.pins k = none) : ((pm.applyOps ops).pins k) = none := by
  induction ops generalizing pm with
  | nil => exact hk
  | cons op ops ih =>
      rw [PinManager.applyOps]
      exact ih ((pm.applyOp op).1) (applyOp_unknown_stays pm op k hk)

/-- C2 counterexample: the claim "no PinManager operation ever changes a
power-rail pin's mode or value" is false at the concrete call
`digitalWrite('3V3', 0)` — `digitalWrite` guards only on key existence
(PinManager.js line 44), and the rail key `3V3` exists, so its value is
overwritten from its initial 1 to 0. -/
theorem digitalWrite_rail_changes_value :
    ((PinManager.init.pins "3V3").map Pin.value = some 1) ∧
    (((PinManager.init.digitalWrite "3V3" (Value.num 0)).1.pins "3V3").map Pin.value
      = some 0) := by
  constructor <;> decide

/-- C2 (amended): power-rail pins keep their initial mode `POWER` and their
initial values (3V3 = 1, GND = 0, VIN = 1) under every sequence of operations
in which no `pinMode`/`digitalWrite`/`analogWrite`/`setAnalogValue` targets a
rail key directly (`connectPin`/`disconnectPin` may target rails: they only
touch the bookkeeping reference). -/
theorem rails_fixed_under_sparing_ops (ops : List PMOp)
    (h : ∀ op ∈ ops, op.sparesRails) :
    (∀ r ∈ railKeys,
      ((PinManager.init.applyOps ops).pins r).map (fun p => (p.mode, p.value)) =
        (PinManager.init.pins r).map (fun p => (p.mode, p.value))) ∧
    (PinManager.init.pins "3V3").map (fun p => (p.mode, p.value)) = some ("POWER", 1) ∧
    (PinManager.init.pins "GND").map (fun p => (p.mode, p.value)) = some ("POWER", 0) ∧
    (PinManager.init.pins "VIN").map (fun p => (p.mode, p.value)) = some ("POWER", 1) := by
  refine ⟨fun r hr => applyOps_preserves_rails ops PinManager.init h r hr, ?_, ?_, ?_⟩
  <;> decide

/-- Witness for `rails_fixed_under_sparing_ops` at a concrete operation
sequence touching GPIO pins and wiring a component to the 3V3 rail. -/
theorem rails_fixed_under_sparing_ops_witness :
    ((PinManager.init.applyOps
        [PMOp.digitalWrite "13" (Value.num 1), PMOp.pinMode "4" "OUTPUT",
         PMOp.connectPin "3V3" (Value.str "led1") "VCC",
         PMOp.analogWrite "25" 300]).pins "3V3").map (fun p => (p.mode, p.value)) =
      (PinManager.init.pins "3V3").map (fun p => (p.mode, p.value)) := by
  have h := rails_fixed_under_sparing_ops
    [PMOp.digitalWrite "13" (Value.num 1), PMOp.pinMode "4" "OUTPUT",
     PMOp.connectPin "3V3" (Value.str "led1") "VCC",
     PMOp.analogWrite "25" 300]
    (by
      intro op hop
      simp only [List.mem_cons, List.not_mem_nil, or_false] at hop
      rcases hop with rfl | rfl | rfl | rfl <;>
        simp [PMOp.sparesRails, PMOp.key, railKeys])
  exact h.1 "3V3" (by decide)

/-- C4: for every pin id outside the pin table (equivalently, outside the
declared GPIO/power-rail set, since no operation ever adds keys), in any state
reachable by any operation sequence, `digitalRead`/`analogRead` return 0 and
all six write/bookkeeping operations return the state unchanged and fire no
notification. -/
theorem unknown_pin_ops_are_noops (k : String)
    (hk : PinManager.init.pins k = none) (ops : List PMOp) :
    (PinManager.init.applyOps ops).digitalRead k = 0 ∧
    (PinManager.init.applyOps ops).analogRead k = 0 ∧
    (∀ m, (PinManager.init.applyOps ops).pinMode k m =
      (PinManager.init.applyOps ops, [])) ∧
    (∀ v, (PinManager.init.applyOps ops).digitalWrite k v =
      (PinManager.init.applyOps ops, [])) ∧
    (∀ v, (PinManager.init.applyOps ops).analogWrite k v =
      (PinManager.init.applyOps ops, [])) ∧
    (∀ v, (PinManager.init.applyOps ops).setAnalogValue k v =
      (PinManager.init.applyOps ops, [])) ∧
    (∀ cid pn, (PinManager.init.applyOps ops).connectPin k cid pn =
      (PinManager.init.applyOps ops, [])) ∧
    (PinManager.init.applyOps ops).disconnectPin k =
      (PinManager.init.applyOps ops, []) := by
  have hnone := applyOps_unknown_stays ops PinManager.init k hk
  refine ⟨?_, ?_, ?_, ?_, ?_, ?_, ?_, ?_⟩ <;>
    simp [PinManager.digitalRead, PinManager.analogRead, PinManager.pinMode,
      PinManager.digitalWrite, PinManager.analogWrite, PinManager.setAnalogValue,
      PinManager.connectPin, PinManager.disconnectPin, hnone]

/-- Witness for `unknown_pin_ops_are_noops`: pin id 6 is not a declared ESP32
GPIO, so after a write to pin 13 everything on pin 6 is a silent no-op. -/
theorem unknown_pin_ops_are_noops_witness :
    ((PinManager.init.applyOps [PMOp.digitalWrite "13" (Value.num 1)]).digitalRead "6" = 0)
    ∧ ((PinManager.init.applyOps [PMOp.digitalWrite "13" (Value.num 1)]).pinMode "6" "OUTPUT"
        = (PinManager.init.applyOps [PMOp.digitalWrite "13" (Value.num 1)], [])) := by
  have h := unknown_pin_ops_are_noops "6" (by decide)
    [PMOp.digitalWrite "13" (Value.num 1)]
  exact ⟨h.1, h.2.2.1 "OUTPUT"⟩

/-- Unfolding lemma for the `Q` strict order. -/
theorem q_lt_def (a b : Q) : a < b ↔ Q.blt a b = true := Iff.rfl

/-- Helper: positivity passes through the `Math.max(0, _)` clamp. -/
theorem zero_lt_qmax (m : Q) : ((0 : Q) < Q.max 0 m) ↔ (0 : Q) < m := by
  by_cases h : Q.blt 0 m = true
  · rw [Q.max, if_pos h]
  · rw [Q.max, if_neg h]
    constructor
    · intro hc; exact absurd hc (by decide)
    · intro hm; exact absurd hm h

/-- Helper: positivity passes through the `Math.min(255, _)` clamp. -/
theorem zero_lt_qmin255 (d : Q) : ((0 : Q) < Q.min 255 d) ↔ (0 : Q) < d := by
  have h255 : (255 : Q) = ⟨255, 0⟩ := rfl
  have h0 : (0 : Q) = ⟨0, 0⟩ := rfl
  by_cases h : Q.blt d 255 = true
  · rw [Q.min, if_pos h]
  · rw [Q.min, if_neg h]
    rw [q_lt_def, q_lt_def, h255, h0]
    rw [h255] at h
    simp only [Q.blt, Q.den, decide_eq_true_eq] at h ⊢
    constructor
    · intro _
      omega
    · intro _
      omega

/-- C5: on any known pin, `analogWrite(pin, d)` stores the clamp of `d` to
[0,255] as the pwm value and sets the digital value to 1 iff that clamped duty
is positive (in the source the digital value is `d > 0 ? 1 : 0`, which agrees
because the clamp is positive exactly when `d` is); `setAnalogValue(pin, v)`
stores the clamp of `v` to [0,4095] as the analog value. -/
theorem analogWrite_setAnalogValue_clamp (pm : PinManager) (k : String) (p : Pin)
    (hp : pm.pins k = some p) (d v : Q) :
    (((pm.analogWrite k d).1.pins k).map Pin.pwmValue = some (Q.max 0 (Q.min 255 d))) ∧
    ((((pm.analogWrite k d).1.pins k).map Pin.value = some 1) ↔
      (0 : Q) < Q.max 0 (Q.min 255 d)) ∧
    (((pm.setAnalogValue k v).1.pins k).map Pin.analogValue
      = some (Q.max 0 (Q.min 4095 v))) := by
  have hiff : ((0 : Q) < Q.max 0 (Q.min 255 d)) ↔ (0 : Q) < d :=
    (zero_lt_qmax _).trans (zero_lt_qmin255 d)
  have hsp : ((pm.analogWrite k d).1.pins k) =
      some { p with pwmValue := Q.max 0 (Q.min 255 d),
                    value := if Q.blt 0 d then 1 else 0 } := by
    simp [PinManager.analogWrite, hp, PinManager.setPin]
  refine ⟨?_, ?_, ?_⟩
  · rw [hsp]; rfl
  · rw [hsp, hiff]
    show (some (if Q.blt 0 d then (1 : Q) else 0) = some 1) ↔ (0 : Q) < d
    by_cases hd : Q.blt 0 d = true
    · rw [if_pos hd]
      exact iff_of_true rfl hd
    · rw [if_neg hd]
      constructor
      · intro hc
        have h01 : (0 : Q) = 1 := Option.some.inj hc
        exact absurd h01 (by decide)
      · intro hlt
        exact absurd hlt hd
  · simp [PinManager.setAnalogValue, hp, PinManager.setPin]

/-- Witness for `analogWrite_setAnalogValue_clamp` on GPIO 13 with an
out-of-range duty 300 and an out-of-range analog raw value 5000. -/
theorem analogWrite_setAnalogValue_clamp_witness :
    (((PinManager.init.analogWrite "13" 300).1.pins "13").map Pin.pwmValue
      = some (Q.max 0 (Q.min 255 300))) ∧
    ((((PinManager.init.analogWrite "13" 300).1.pins "13").map Pin.value = some 1)
      ↔ (0 : Q) < Q.max 0 (Q.min 255 (300 : Q))) ∧
    (((PinManager.init.setAnalogValue "13" 5000).1.pins "13").map Pin.analogValue
      = some (Q.max 0 (Q.min 4095 5000))) :=
  analogWrite_setAnalogValue_clamp PinManager.init "13" (gpioPin 13) (by decide) 300 5000

/-! ### Claim C1 -/

/-- C1 counterexample: the claim "the string concatenation `"a" + "b"`
evaluates to 0" is false — the expression begins and ends with a double
quote, so the string-literal branch (ArduinoParser.js lines 454-457) fires
first and returns the interior `a" + "b` (a string, not the number 0). -/
theorem string_concat_is_string_literal :
    evaluateExpr 9 ⟨PinManager.init, [], 0, 1, 0⟩ [] "\"a\" + \"b\"" = .str "a\" + \"b"
    ∧ Value.str "a\" + \"b" ≠ .num 0 := ⟨by decide, by decide⟩

/-- C1 (amended): `evaluateExpr` is total by construction, and for every
expression on which every recognition guard fails (no keyword constant, no
numeric/hex literal, no quoted literal — note an expression that merely
begins and ends with a quote counts as a quoted literal — no
`millis`/`micros`, no built-in call pattern, no scope hit) and whose
substituted text then fails the arithmetic fallback (safety regex fails, or
the restricted evaluation is a syntax error), the result is the number 0:
no exception ever reaches the caller. -/
theorem evaluateExpr_default_zero (fuel : Nat) (env : Env) (locals : Scope) (e : String)
    (h1 : evalGuardsFail env locals (jsTrim e) = true)
    (h2 : safeArithTest (substituteVars (Scope.merge env.globals locals) (jsTrim e)) = false
        ∨ evalArith (substituteVars (Scope.merge env.globals locals) (jsTrim e)) = none) :
    evaluateExpr (fuel + 1) env locals e = .num 0 := by
  simp only [evalGuardsFail, Bool.and_eq_true, bne_iff_ne, ne_eq, Bool.not_eq_true',
    Bool.or_eq_false_iff, Bool.and_eq_false_iff, Option.isNone_iff_eq_none] at h1
  obtain ⟨⟨⟨⟨⟨⟨⟨⟨⟨⟨⟨⟨⟨⟨⟨⟨⟨⟨⟨⟨⟨⟨⟨⟨h01, h02⟩, h03⟩, h04⟩, h05⟩, h06⟩, h07⟩, h08⟩,
    h09⟩, h10⟩, h11⟩, h12⟩, h13⟩, h14⟩, h15⟩, h16⟩, h17⟩, h18⟩, h19⟩, h20⟩,
    h21⟩, h22⟩, h23⟩, h24⟩, h25⟩ := h1
  have hq : ((strStartsWith (jsTrim e) "\"" && strEndsWith (jsTrim e) "\"") ||
      (strStartsWith (jsTrim e) "'" && strEndsWith (jsTrim e) "'")) = false := by
    rcases h10 with ⟨hA, hB⟩
    rcases hA with h | h <;> rcases hB with h' | h' <;> simp [h, h']
  simp only [evaluateExpr, h01, h02, h03, h04, h05, h06, h07, h08, h09, hq, h11, h12,
    h13, h14, h15, h16, h17, h18, h19, h20, h21, h22, h23, h24, h25,
    if_false, if_neg, reduceCtorEq, Bool.false_eq_true]
  unfold arithFallback
  rcases h2 with h2 | h2
  · simp [h2]
  · simp [h2]

/-- Witness for `evaluateExpr_default_zero` at the unsupported ternary
expression `x ? 1 : 2` (the substituted text `4 ? 1 : 2` fails the safety
regex). -/
theorem evaluateExpr_default_zero_witness :
    evaluateExpr 8 ⟨PinManager.init, [("x", .num 4)], 0, 1, 0⟩ [] "x ? 1 : 2" = .num 0 :=
  evaluateExpr_default_zero 7 ⟨PinManager.init, [("x", .num 4)], 0, 1, 0⟩ [] "x ? 1 : 2"
    (by decide) (Or.inl (by decide))

/-! ### Claim C3 -/

/-- C3 counterexample: with `delay(10000)` entered at time 0 at speed 1 and
`stop()` issued at t = 1 ms, the suspension still resumes only at
t = 10000 ms — the full requested duration — because `sleep`'s timeout
holds no reference to the running flag and is never cancelled; so the claim
that the suspension "observes the cleared running flag and terminates
promptly rather than completing its full requested duration" is false.
(The `stopped` status is nevertheless reported immediately at t = 1, by
`stop()` itself.) -/
theorem stop_during_delay_full_duration :
    delayStopModel 10000 1 1 ["digitalWrite(13, HIGH)"]
      = ⟨some 1, 10000, []⟩
    ∧ ¬ (delayStopModel 10000 1 1 ["digitalWrite(13, HIGH)"]).resumeAt < 10000 := by
  constructor
  · decide
  · decide

/-- C3 (amended): a `stop()` issued at any time before the wake time of an
in-flight `delay` immediately reports status `stopped` (inside `stop()`
itself), the suspension is not shortened — it resumes exactly at
`max(1, requested/speed)` ms after entry — and upon resumption the cleared
flag prevents every queued statement from executing. -/
theorem stop_during_delay_behavior (d speed : Q) (tStop : Nat) (rest : List String)
    (h : tStop < sleepWakeTime 0 (d / speed)) :
    delayStopModel d speed tStop rest =
      ⟨some tStop, sleepWakeTime 0 (d / speed), []⟩ := by
  simp [delayStopModel, h]

/-- Witness for `stop_during_delay_behavior` at the concrete C3 scenario. -/
theorem stop_during_delay_behavior_witness :
    delayStopModel 10000 1 1 ["digitalWrite(13, HIGH)"]
      = ⟨some 1, sleepWakeTime 0 ((10000 : Q) / 1), []⟩ :=
  stop_during_delay_behavior 10000 1 1 ["digitalWrite(13, HIGH)"] (by decide)

/-! ### Claim C6 -/

/-- C6 counterexample: the claim says a flushed event carries an elapsed
time "scaled by the speed multiplier"; at speed 2 with 1000 ms of wall time
since start, that would be 2 s, but `handleSerial` (Engine.js line 128)
computes `(Date.now() - startTime) / 1000` without the multiplier and the
event carries 1 s. -/
theorem handleSerial_elapsed_unscaled :
    ((handleSerial ⟨"", 0, 1000, 2⟩ "z" "println").2.map SerialEvent.elapsed = some 1)
    ∧ ((handleSerial ⟨"", 0, 1000, 2⟩ "z" "println").2.map SerialEvent.elapsed
        ≠ some ((⟨"", 0, 1000, 2⟩ : EngineSerial).speed *
            (Q.ofNat (1000 - 0) / Q.ofNat 1000))) := by
  constructor
  · decide
  · decide

/-- C6 (amended): `print` emissions only append to the pending buffer and
produce no event; every non-`print` emission produces exactly one event
whose text is the buffer followed by the new text, tagged with the
emission's category and the elapsed wall-clock seconds since run start
(not scaled by the speed multiplier), leaving the buffer empty; and
executing `Serial.print("x"); Serial.print("y"); Serial.println("z");`
from a fresh state yields exactly one event with text `"xyz"` and category
`println`. -/
theorem serial_buffering_contract (es : EngineSerial) (text ty : String)
    (hty : ty ≠ "print") :
    (handleSerial es text "print" = ({ es with buffer := es.buffer ++ text }, none))
    ∧ (handleSerial es text ty =
        ({ es with buffer := "" },
          some ⟨es.buffer ++ text, ty, Q.ofNat (es.now - es.startTime) / Q.ofNat 1000⟩))
    ∧ ((execList 30 ["Serial.print(\"x\")", "Serial.print(\"y\")", "Serial.println(\"z\")"]
          [] (freshState [])).2.events = [⟨"xyz", "println", 0⟩]) := by
  refine ⟨?_, ?_, ?_⟩
  · simp [handleSerial]
  · simp [handleSerial, hty]
  · decide

/-- Witness for `serial_buffering_contract` at a concrete engine state and
the non-print category `printf`. -/
theorem serial_buffering_contract_witness :
    handleSerial ⟨"xy", 0, 1000, 1⟩ "z" "printf" =
      ({ (⟨"xy", 0, 1000, 1⟩ : EngineSerial) with buffer := "" },
        some ⟨"xy" ++ "z", "printf", Q.ofNat (1000 - 0) / Q.ofNat 1000⟩) :=
  (serial_buffering_contract ⟨"xy", 0, 1000, 1⟩ "z" "printf" (by decide)).2.1

/-! ### Claim C7 -/

/-- C7: an exception thrown while executing any statement of the run —
during `setup` or during any `loop` iteration — is caught exactly once at
the top of `start`'s try/catch: the model emits exactly one serial event,
whose text is the pending buffer followed by the distinct `[Error] `
prefix and the message, with category `error`; the status sequence is
`running` then `error` (never `stopped`); and the outcomes queued after the
throwing iteration are never consumed — the result does not depend on
them, so loop execution does not resume and only a new explicit `start`
(which re-parses) can run again. -/
theorem run_error_single_catch (es : EngineSerial) (msg : String)
    (oks : List ExecOutcome) (hoks : ∀ o ∈ oks, o = .ok) (rest : List ExecOutcome) :
    (startModel es .ok (oks ++ .err msg :: rest)
      = ([⟨es.buffer ++ ("[Error] " ++ msg), "error",
            Q.ofNat (es.now - es.startTime) / Q.ofNat 1000⟩], ["running", "error"], true))
    ∧ (startModel es (.err msg) rest
      = ([⟨es.buffer ++ ("[Error] " ++ msg), "error",
            Q.ofNat (es.now - es.startTime) / Q.ofNat 1000⟩], ["running", "error"], true)) := by
  constructor
  · induction oks with
    | nil => simp [startModel, startLoop, handleSerial]
    | cons o os ih =>
        have ho : o = .ok := hoks o (List.mem_cons_self o os)
        subst ho
        have := ih (fun o' ho' => hoks o' (List.mem_cons_of_mem _ ho'))
        simpa [startModel, startLoop] using this
  · simp [startModel, handleSerial]

/-- Witness for `run_error_single_catch`: two clean loop iterations, then a
throwing one, with further queued outcomes that are provably ignored. -/
theorem run_error_single_catch_witness :
    startModel ⟨"", 0, 5, 1⟩ .ok [.ok, .ok, .err "boom", .err "other"]
      = ([⟨"" ++ ("[Error] " ++ "boom"), "error", Q.ofNat (5 - 0) / Q.ofNat 1000⟩],
          ["running", "error"], true) := by
  have h := run_error_single_catch ⟨"", 0, 5, 1⟩ "boom" [.ok, .ok] (by decide) [.err "other"]
  exact h.1

/-! ### Claim C8 -/

/-- C8: executing `for (int i = 0; i < 5; i++) { x += 1; }` from a state
where the global `x` is 0 (and the running flag stays set throughout)
terminates with `x = 5`; the dispatch log shows the init statement executed
once and the body and step statements exactly 5 times each (the loop also
leaves `i = 5`, written to the global table because the statement runs in
the top-level scope). -/
theorem for_loop_five_iterations :
    ((execOne 60 forDemoStmt [] (freshState [("x", .num 0)])).2.vars.get? "x"
        = some (.num 5))
    ∧ (((execOne 60 forDemoStmt [] (freshState [("x", .num 0)])).2.log.filter
          (fun s => s = "x += 1")).length = 5)
    ∧ (((execOne 60 forDemoStmt [] (freshState [("x", .num 0)])).2.log.filter
          (fun s => s = "i++")).length = 5)
    ∧ (((execOne 60 forDemoStmt [] (freshState [("x", .num 0)])).2.log.filter
          (fun s => s = "int i = 0")).length = 1)
    ∧ ((execOne 60 forDemoStmt [] (freshState [("x", .num 0)])).2.vars.get? "i"
        = some (.num 5)) := by
  refine ⟨?_, ?_, ?_, ?_, ?_⟩ <;> decide

/-! ### Claim C10 -/

/-- C10: a statement classified as a call to a defined function executes
the function body against a fresh table built by spreading the caller's
local table and overlaying the positional parameter bindings (missing or
empty arguments bound to 0, per `bindParams`), and returns the caller's
local table unchanged — assignments inside the callee to locals or
parameters never survive the call, while the returned state carries every
global-table write. -/
theorem call_frame (fuel : Nat) (stmt : String) (locals : Scope) (st : SimState)
    (name args : String) (f : Func)
    (hc : classify st.fns stmt = .callK name args)
    (hf : lookupFn st.fns name = some f)
    (hrun : st.running = true) :
    execOne (fuel + 1) stmt locals st =
      (locals,
        (execList fuel f.body
          (locals.merge (bindParams fuel st.env locals f.params
            (if args = "" then [] else splitArgs args)))
          { st with log := st.log ++ [stmt] }).2) := by
  have hc' : classify ({ st with log := st.log ++ [stmt] } : SimState).fns stmt
      = StmtKind.callK name args := hc
  have hf' : lookupFn ({ st with log := st.log ++ [stmt] } : SimState).fns name = some f := hf
  have henv : ({ st with log := st.log ++ [stmt] } : SimState).env = st.env := rfl
  simp only [execOne, hrun, Bool.not_true, Bool.false_eq_true, if_false, hc', hf', henv]
  rfl

/-- Witness for `call_frame`: calling `bump(7)` where `bump(v)` assigns the
global `x` and the name `w` (a caller local, hence shadow-written into the
discarded frame): the caller's local table comes back unchanged while the
global write persists. -/
theorem call_frame_witness :
    execOne 20 "bump(7)" [("w", .num 1)]
      { freshState [("x", .num 0)] with
          fns := [("bump", ⟨["v"], ["x = v", "w = 3"]⟩)] } =
      ([("w", .num 1)],
        (execList 19 (⟨["v"], ["x = v", "w = 3"]⟩ : Func).body
          (Scope.merge [("w", .num 1)]
            (bindParams 19
              ({ freshState [("x", .num 0)] with
                  fns := [("bump", ⟨["v"], ["x = v", "w = 3"]⟩)] } : SimState).env
              [("w", .num 1)] (⟨["v"], ["x = v", "w = 3"]⟩ : Func).params
              (if "7" = "" then [] else splitArgs "7")))
          { ({ freshState [("x", .num 0)] with
              fns := [("bump", ⟨["v"], ["x = v", "w = 3"]⟩)] } : SimState) with
              log := ({ freshState [("x", .num 0)] with
                fns := [("bump", ⟨["v"], ["x = v", "w = 3"]⟩)] } : SimState).log
                ++ ["bump(7)"] }).2) :=
  call_frame 19 "bump(7)" [("w", .num 1)]
    { freshState [("x", .num 0)] with
        fns := [("bump", ⟨["v"], ["x = v", "w = 3"]⟩)] }
    "bump" "7" ⟨["v"], ["x = v", "w = 3"]⟩ (by decide) (by decide) rfl

/-! ### Helper lemmas for the JSON round trip (C9) -/

/-- Whitespace prefixes disappear under `skipJWs`. -/
theorem skipJWs_append_ws (pre cs : List Char) (h : ∀ c ∈ pre, isJWs c = true) :
    skipJWs (pre ++ cs) = skipJWs cs := by
  induction pre with
  | nil => rfl
  | cons c p ih =>
      have hc : isJWs c = true := h c (List.mem_cons_self c p)
      simp only [List.cons_append, skipJWs, List.dropWhile_cons, hc, if_true]
      exact ih (fun c' h' => h c' (List.mem_cons_of_mem _ h'))

/-- `skipJWs` is the identity on a non-whitespace head. -/
theorem skipJWs_cons_not (c : Char) (cs : List Char) (h : isJWs c = false) :
    skipJWs (c :: cs) = c :: cs := by
  simp [skipJWs, List.dropWhile_cons, h]

/-- Every character of an indentation run is JSON whitespace. -/
theorem spaces_ws (n : Nat) : ∀ c ∈ spaces n, isJWs c = true := by
  intro c hc
  rw [spaces, List.mem_replicate] at hc
  rw [hc.2]
  decide

/-- Digit characters and their codes. -/
theorem digitChar_spec (m : Nat) (h : m < 10) :
    (Char.ofNat (48 + m)).isDigit = true ∧ (Char.ofNat (48 + m)).toNat = 48 + m := by
  interval_cases m <;> exact ⟨by decide, by decide⟩

/-- The digit lists `natDigits` produces do not depend on the fuel, as long
as it exceeds the number. -/
theorem natDigits_extra (n : Nat) : ∀ f1 f2, n < f1 → n < f2 →
    natDigits f1 n = natDigits f2 n := by
  induction n using Nat.strong_induction_on with
  | _ n ih =>
      intro f1 f2 h1 h2
      match f1, f2 with
      | g1 + 1, g2 + 1 =>
          simp only [natDigits]
          by_cases hlt : n < 10
          · simp [hlt]
          · have hd1 : n / 10 < n := Nat.div_lt_self (by omega) (by omega)
            simp only [hlt, if_false]
            rw [ih (n / 10) hd1 g1 g2 (by omega) (by omega)]

/-- Shape of `natDigits`: nonempty, all digits, and folding the digit codes
back recovers the number. -/
theorem natDigits_spec (n : Nat) : ∀ fuel, n < fuel →
    natDigits fuel n ≠ [] ∧ (∀ c ∈ natDigits fuel n, c.isDigit = true) ∧
      List.foldl (fun a c => a * 10 + (c.toNat - 48)) 0 (natDigits fuel n) = n := by
  induction n using Nat.strong_induction_on with
  | _ n ih =>
      intro fuel hf
      match fuel with
      | g + 1 =>
          by_cases hlt : n < 10
          · obtain ⟨hdig, hcode⟩ := digitChar_spec n hlt
            refine ⟨by simp [natDigits, hlt], ?_, ?_⟩
            · intro c hc
              simp only [natDigits, hlt, if_true, List.mem_singleton] at hc
              rw [hc]; exact hdig
            · simp only [natDigits, hlt, if_true, List.foldl]
              omega
          · have hd1 : n / 10 < n := Nat.div_lt_self (by omega) (by omega)
            obtain ⟨hne, hdigs, hfold⟩ := ih (n / 10) hd1 g (by omega)
            obtain ⟨hdig, hcode⟩ := digitChar_spec (n % 10) (Nat.mod_lt n (by omega))
            refine ⟨by simp [natDigits, hlt], ?_, ?_⟩
            · intro c hc
              simp only [natDigits, hlt, if_false, List.mem_append,
                List.mem_singleton] at hc
              rcases hc with hc | hc
              · exact hdigs c hc
              · rw [hc]; exact hdig
            · simp only [natDigits, hlt, if_false, List.foldl_append, hfold, List.foldl]
              omega

/-- `takeWhile` swallows a satisfying prefix and stops at a failing head. -/
theorem takeWhile_append_all (p : Char → Bool) (xs rest : List Char)
    (hxs : ∀ c ∈ xs, p c = true) (hr : ∀ c, rest.head? = some c → p c = false) :
    List.takeWhile p (xs ++ rest) = xs := by
  induction xs with
  | nil =>
      cases rest with
      | nil => rfl
      | cons c cs => simp [List.takeWhile_cons, hr c rfl]
  | cons x xs ih =>
      have hx : p x = true := hxs x (List.mem_cons_self x xs)
      simp only [List.cons_append, List.takeWhile_cons, hx, if_true, List.cons.injEq,
        true_and]
      exact ih (fun c h => hxs c (List.mem_cons_of_mem _ h))

/-- Parsing the decimal rendering of an integer recovers it, whenever the
following text does not begin with another digit. -/
theorem parseJNum_intToStr (i : Int) (rest : List Char)
    (hrest : ∀ c, rest.head? = some c → c.isDigit = false) :
    parseJNum ((intToStr i).data ++ rest) = some (i, rest) := by
  by_cases hneg : i < 0
  · have hlt : (-i).toNat < (-i).toNat + 1 := Nat.lt_succ_self _
    obtain ⟨hne, hdigs, hfold⟩ := natDigits_spec (-i).toNat _ hlt
    have hdata : (intToStr i).data =
        '-' :: natDigits ((-i).toNat + 1) (-i).toNat := by
      simp [intToStr, hneg]
    rw [hdata]
    simp only [List.cons_append, parseJNum, headIs, decide_True, if_true,
      List.drop_succ_cons, List.drop_zero]
    rw [takeWhile_append_all (fun c => c.isDigit) _ _ hdigs hrest]
    have : (natDigits ((-i).toNat + 1) (-i).toNat).isEmpty = false := by
      cases h : natDigits ((-i).toNat + 1) (-i).toNat with
      | nil => exact absurd h hne
      | cons a b => rfl
    rw [if_neg (by simp [this])]
    rw [hfold, List.drop_left]
    have : -((↑(-i).toNat : Int)) = i := by omega
    rw [this]
  · have hlt : i.toNat < i.toNat + 1 := Nat.lt_succ_self _
    obtain ⟨hne, hdigs, hfold⟩ := natDigits_spec i.toNat _ hlt
    have hdata : (intToStr i).data = natDigits (i.toNat + 1) i.toNat := by
      simp [intToStr, hneg]
    rw [hdata]
    obtain ⟨d, ds, hds⟩ : ∃ d ds, natDigits (i.toNat + 1) i.toNat = d :: ds := by
      cases h : natDigits (i.toNat + 1) i.toNat with
      | nil => exact absurd h hne
      | cons a b => exact ⟨a, b, rfl⟩
    have hd : d.isDigit = true := hdigs d (by rw [hds]; exact List.mem_cons_self d ds)
    have hdne : (d = '-') = False := by
      simp only [eq_iff_iff, iff_false]
      intro hcontra
      rw [hcontra] at hd
      exact absurd hd (by decide)
    rw [hds]
    simp only [List.cons_append, parseJNum, headIs, hdne, decide_False,
      Bool.false_eq_true, if_false]
    rw [← List.cons_append, ← hds]
    rw [takeWhile_append_all (fun c => c.isDigit) _ _ hdigs hrest]
    have hemp : (natDigits (i.toNat + 1) i.toNat).isEmpty = false := by
      rw [hds]; rfl
    rw [if_neg (by simp [hemp])]
    rw [hfold, List.drop_left]
    have : ((↑i.toNat : Int)) = i := by omega
    rw [this]

/-- Every escape sequence is nonempty. -/
theorem escapeChar_len (c : Char) : 1 ≤ (escapeChar c).length := by
  unfold escapeChar
  split_ifs <;> simp

/-- The escaped rendering of a string body, closing quote included, is
strictly longer than the body. -/
theorem escFold_len (cs rest : List Char) :
    cs.length < (List.foldr (fun c a => escapeChar c ++ a) ('"' :: rest) cs).length := by
  induction cs with
  | nil => simp
  | cons c t ih =>
      simp only [List.foldr_cons, List.length_cons, List.length_append]
      have h := escapeChar_len c
      omega

/-- Appending after an escape fold is the fold over an extended initial
segment. -/
theorem escFold_append (cs i r : List Char) :
    (List.foldr (fun c a => escapeChar c ++ a) i cs) ++ r
      = List.foldr (fun c a => escapeChar c ++ a) (i ++ r) cs := by
  induction cs with
  | nil => rfl
  | cons c t ih => simp [List.foldr_cons, List.append_assoc, ih]

/-- Hexadecimal digit values round-trip through `Nat.digitChar`. -/
theorem hexVal_digitChar (v : Nat) (h : v < 16) :
    hexVal? (hexDigitChar v) = some v := by
  interval_cases v <;> decide

/-- One string-body parser step over an unescaped character. -/
theorem parseStringBody_step_plain (g : Nat) (c : Char) (rem acc : List Char)
    (h1 : ¬ c = '"') (h2 : ¬ c = '\\') :
    parseStringBody (g + 1) (c :: rem) acc = parseStringBody g rem (c :: acc) := by
  simp [parseStringBody, h1, h2]

/-- One string-body parser step over a `\u00XX` escape. -/
theorem parseStringBody_step_u (g : Nat) (d1 d2 : Char) (v1 v2 : Nat)
    (rem acc : List Char)
    (e1 : hexVal? d1 = some v1) (e2 : hexVal? d2 = some v2) :
    parseStringBody (g + 1) ('\\' :: 'u' :: '0' :: '0' :: d1 :: d2 :: rem) acc
      = parseStringBody g rem (Char.ofNat (((0 * 16 + 0) * 16 + v1) * 16 + v2) :: acc) := by
  have h0 : hexVal? '0' = some 0 := rfl
  simp [parseStringBody, e1, e2, h0]

/-- Parsing the escape-rendered form of a string body recovers the body
exactly, leaving the remainder untouched. -/
theorem parseStringBody_escFold (cs : List Char) : ∀ (acc rest : List Char) (fuel : Nat),
    cs.length < fuel →
    parseStringBody fuel (List.foldr (fun c a => escapeChar c ++ a) ('"' :: rest) cs) acc
      = some (String.mk (acc.reverse ++ cs), rest) := by
  induction cs with
  | nil =>
      intro acc rest fuel hf
      match fuel with
      | g + 1 => simp [parseStringBody]
  | cons c t ih =>
      intro acc rest fuel hf
      match fuel with
      | g + 1 =>
      have hg : t.length < g := by
        simp only [List.length_cons] at hf
        omega
      simp only [List.foldr_cons]
      by_cases h1 : c = '"'
      · subst h1
        rw [show escapeChar '"' = ['\\', '"'] from rfl]
        rw [show parseStringBody (g + 1)
              (['\\', '"'] ++ List.foldr (fun c a => escapeChar c ++ a) ('"' :: rest) t) acc
              = parseStringBody g (List.foldr (fun c a => escapeChar c ++ a) ('"' :: rest) t)
                  ('"' :: acc) from rfl]
        rw [ih ('"' :: acc) rest g hg]
        simp
      · by_cases h2 : c = '\\'
        · subst h2
          rw [show escapeChar '\\' = ['\\', '\\'] from rfl]
          rw [show parseStringBody (g + 1)
                (['\\', '\\'] ++ List.foldr (fun c a => escapeChar c ++ a) ('"' :: rest) t) acc
                = parseStringBody g (List.foldr (fun c a => escapeChar c ++ a) ('"' :: rest) t)
                    ('\\' :: acc) from rfl]
          rw [ih ('\\' :: acc) rest g hg]
          simp
        · by_cases h3 : c = '\x08'
          · subst h3
            rw [show escapeChar '\x08' = ['\\', 'b'] from rfl]
            rw [show parseStringBody (g + 1)
                  (['\\', 'b'] ++ List.foldr (fun c a => escapeChar c ++ a) ('"' :: rest) t) acc
                  = parseStringBody g (List.foldr (fun c a => escapeChar c ++ a) ('"' :: rest) t)
                      ('\x08' :: acc) from rfl]
            rw [ih ('\x08' :: acc) rest g hg]
            simp
          · by_cases h4 : c = '\x0c'
            · subst h4
              rw [show escapeChar '\x0c' = ['\\', 'f'] from rfl]
              rw [show parseStringBody (g + 1)
                    (['\\', 'f'] ++ List.foldr (fun c a => escapeChar c ++ a) ('"' :: rest) t) acc
                    = parseStringBody g (List.foldr (fun c a => escapeChar c ++ a) ('"' :: rest) t)
                        ('\x0c' :: acc) from rfl]
              rw [ih ('\x0c' :: acc) rest g hg]
              simp
            · by_cases h5 : c = '\n'
              · subst h5
                rw [show escapeChar '\n' = ['\\', 'n'] from rfl]
                rw [show parseStringBody (g + 1)
                      (['\\', 'n'] ++ List.foldr (fun c a => escapeChar c ++ a) ('"' :: rest) t) acc
                      = parseStringBody g (List.foldr (fun c a => escapeChar c ++ a) ('"' :: rest) t)
                          ('\n' :: acc) from rfl]
                rw [ih ('\n' :: acc) rest g hg]
                simp
              · by_cases h6 : c = '\r'
                · subst h6
                  rw [show escapeChar '\r' = ['\\', 'r'] from rfl]
                  rw [show parseStringBody (g + 1)
                        (['\\', 'r'] ++ List.foldr (fun c a => escapeChar c ++ a) ('"' :: rest) t) acc
                        = parseStringBody g
                            (List.foldr (fun c a => escapeChar c ++ a) ('"' :: rest) t)
                            ('\r' :: acc) from rfl]
                  rw [ih ('\r' :: acc) rest g hg]
                  simp
                · by_cases h7 : c = '\t'
                  · subst h7
                    rw [show escapeChar '\t' = ['\\', 't'] from rfl]
                    rw [show parseStringBody (g + 1)
                          (['\\', 't'] ++ List.foldr (fun c a => escapeChar c ++ a) ('"' :: rest) t)
                            acc
                          = parseStringBody g
                              (List.foldr (fun c a => escapeChar c ++ a) ('"' :: rest) t)
                              ('\t' :: acc) from rfl]
                    rw [ih ('\t' :: acc) rest g hg]
                    simp
                  · by_cases h8 : c.toNat < 32
                    · have he : escapeChar c = ['\\', 'u', '0', '0',
                          hexDigitChar (c.toNat / 16), hexDigitChar (c.toNat % 16)] := by
                        unfold escapeChar
                        simp [h1, h2, h3, h4, h5, h6, h7, h8]
                      rw [he]
                      have e1 : hexVal? (hexDigitChar (c.toNat / 16)) = some (c.toNat / 16) :=
                        hexVal_digitChar _ (by omega)
                      have e2 : hexVal? (hexDigitChar (c.toNat % 16)) = some (c.toNat % 16) :=
                        hexVal_digitChar _ (by omega)
                      have hstep := parseStringBody_step_u g _ _ _ _
                        (List.foldr (fun c a => escapeChar c ++ a) ('"' :: rest) t) acc e1 e2
                      simp only [List.cons_append, List.nil_append] at hstep ⊢
                      rw [hstep]
                      have hch : Char.ofNat
                          (((0 * 16 + 0) * 16 + c.toNat / 16) * 16 + c.toNat % 16) = c := by
                        have harith : ((0 * 16 + 0) * 16 + c.toNat / 16) * 16 + c.toNat % 16
                            = c.toNat := by omega
                        rw [harith, Char.ofNat_toNat]
                      rw [hch, ih (c :: acc) rest g hg]
                      simp
                    · have he : escapeChar c = [c] := by
                        unfold escapeChar
                        simp [h1, h2, h3, h4, h5, h6, h7, h8]
                      rw [he]
                      simp only [List.cons_append, List.nil_append]
                      rw [parseStringBody_step_plain g c _ acc h1 h2, ih (c :: acc) rest g hg]
                      simp

/-- JSON whitespace is never a digit. -/
theorem ws_not_digit (c : Char) (h : isJWs c = true) : c.isDigit = false := by
  simp only [isJWs, Bool.or_eq_true, decide_eq_true_eq] at h
  rcases h with ((h | h) | h) | h <;> rw [h] <;> decide

/-- A digit head is not whitespace and is none of the keyword or
structural delimiters. -/
theorem digit_head_props (c : Char) (h : c.isDigit = true) :
    isJWs c = false ∧ c ≠ ']' ∧ c ≠ '\x7d' ∧ c ≠ 'n' ∧ c ≠ 't' ∧ c ≠ 'f' ∧
      c ≠ '"' ∧ c ≠ '[' ∧ c ≠ '{' := by
  refine ⟨?_, ?_, ?_, ?_, ?_, ?_, ?_, ?_, ?_⟩
  · cases hw : isJWs c with
    | false => rfl
    | true =>
        have hd := ws_not_digit c hw
        rw [h] at hd
        exact Bool.noConfusion hd
  · intro he; rw [he] at h; exact absurd h (by decide)
  · intro he; rw [he] at h; exact absurd h (by decide)
  · intro he; rw [he] at h; exact absurd h (by decide)
  · intro he; rw [he] at h; exact absurd h (by decide)
  · intro he; rw [he] at h; exact absurd h (by decide)
  · intro he; rw [he] at h; exact absurd h (by decide)
  · intro he; rw [he] at h; exact absurd h (by decide)
  · intro he; rw [he] at h; exact absurd h (by decide)

/-- `parseJ` ignores leading whitespace. -/
theorem parseJ_ws (f : Nat) (pre cs : List Char) (h : ∀ c ∈ pre, isJWs c = true) :
    parseJ (f + 1) (pre ++ cs) = parseJ (f + 1) cs := by
  unfold parseJ
  rw [skipJWs_append_ws pre cs h]

/-- One `parseJ` step on a non-whitespace head that opens no keyword,
string, array or object: the number fallback. -/
theorem parseJ_num_step (f : Nat) (c : Char) (r : List Char)
    (hws : isJWs c = false) (hn : c ≠ 'n') (ht : c ≠ 't') (hf : c ≠ 'f')
    (hq : c ≠ '"') (hb : c ≠ '[') (ho : c ≠ '{') :
    parseJ (f + 1) (c :: r)
      = match parseJNum (c :: r) with
        | some (n, r2) => some (.num n, r2)
        | none => none := by
  have hn2 : isPre "null".data (c :: r) = false := by
    rw [show "null".data = 'n' :: ['u', 'l', 'l'] from rfl]
    simp [isPre, Ne.symm hn]
  have ht2 : isPre "true".data (c :: r) = false := by
    rw [show "true".data = 't' :: ['r', 'u', 'e'] from rfl]
    simp [isPre, Ne.symm ht]
  have hf2 : isPre "false".data (c :: r) = false := by
    rw [show "false".data = 'f' :: ['a', 'l', 's', 'e'] from rfl]
    simp [isPre, Ne.symm hf]
  unfold parseJ
  rw [skipJWs_cons_not c r hws]
  simp [hn2, ht2, hf2, hq, hb, ho]

/-- Node counts of values are positive. -/
theorem json_count_pos (j : Json) : 1 ≤ Json.count j := by
  cases j <;> simp only [Json.count] <;> omega

/-- Node counts of item lists are positive. -/
theorem jsonList_count_pos (xs : JsonList) : 1 ≤ JsonList.count xs := by
  cases xs <;> simp only [JsonList.count] <;> omega

/-- Node counts of field lists are positive. -/
theorem jsonFields_count_pos (fs : JsonFields) : 1 ≤ JsonFields.count fs := by
  cases fs <;> simp only [JsonFields.count] <;> omega

/-- The first character of a rendered value: it exists, is not whitespace,
and is not a closing delimiter. -/
theorem renderJF_head (j : Json) (g ind : Nat) :
    ∃ c t, renderJF (g + 1) ind j = c :: t ∧ isJWs c = false ∧
      c ≠ ']' ∧ c ≠ '\x7d' := by
  cases j with
  | null => exact ⟨'n', _, rfl, by decide, by decide, by decide⟩
  | bool b =>
      cases b with
      | false => exact ⟨'f', _, rfl, by decide, by decide, by decide⟩
      | true => exact ⟨'t', _, rfl, by decide, by decide, by decide⟩
  | num n =>
      by_cases hneg : n < 0
      · have hdata : (intToStr n).data = '-' :: natDigits ((-n).toNat + 1) (-n).toNat := by
          simp [intToStr, hneg]
        exact ⟨'-', _, hdata, by decide, by decide, by decide⟩
      · have hdata : (intToStr n).data = natDigits (n.toNat + 1) n.toNat := by
          simp [intToStr, hneg]
        obtain ⟨hne, hdigs, _⟩ := natDigits_spec n.toNat (n.toNat + 1) (Nat.lt_succ_self _)
        obtain ⟨d, ds, hds⟩ : ∃ d ds, natDigits (n.toNat + 1) n.toNat = d :: ds := by
          cases hnd : natDigits (n.toNat + 1) n.toNat with
          | nil => exact absurd hnd hne
          | cons a b => exact ⟨a, b, rfl⟩
        have hd : d.isDigit = true := hdigs d (by rw [hds]; exact List.mem_cons_self d ds)
        obtain ⟨hw, hcb, hcc, _, _, _, _, _, _⟩ := digit_head_props d hd
        rw [hds] at hdata
        exact ⟨d, ds, hdata, hw, hcb, hcc⟩
  | str s => exact ⟨'"', _, rfl, by decide, by decide, by decide⟩
  | arr xs =>
      cases xs with
      | nil => exact ⟨'[', _, rfl, by decide, by decide, by decide⟩
      | cons v tl => exact ⟨'[', _, rfl, by decide, by decide, by decide⟩
  | obj fs =>
      cases fs with
      | fnil => exact ⟨'{', _, rfl, by decide, by decide, by decide⟩
      | fcons k v tl => exact ⟨'{', _, rfl, by decide, by decide, by decide⟩

/-- After an all-whitespace run, a non-digit delimiter is still not a
digit. -/
theorem head_ws_append (wsB : List Char) (b : Char) (r : List Char)
    (hws : ∀ c ∈ wsB, isJWs c = true) (hb : b.isDigit = false) :
    ∀ c, (wsB ++ (b :: r)).head? = some c → c.isDigit = false := by
  intro c hc
  cases wsB with
  | nil =>
      simp only [List.nil_append, List.head?_cons, Option.some.injEq] at hc
      rw [← hc]
      exact hb
  | cons w ws =>
      simp only [List.cons_append, List.head?_cons, Option.some.injEq] at hc
      rw [← hc]
      exact ws_not_digit w (hws w (List.mem_cons_self w ws))

/-- After whitespace, a rendered item list starts with the head value's
first character, which closes nothing. -/
theorem renderItemsF_skip (g ind : Nat) (v : Json) (tl : JsonList) (T : List Char) :
    ∃ c t, skipJWs (renderItemsF (g + 1 + 1) ind v tl ++ T) = c :: t ∧
      isJWs c = false ∧ c ≠ ']' ∧ c ≠ '\x7d' := by
  obtain ⟨c, t, hct, hw, h1, h2⟩ := renderJF_head v g ind
  cases tl with
  | nil =>
      refine ⟨c, t ++ T, ?_, hw, h1, h2⟩
      rw [show renderItemsF (g + 1 + 1) ind v .nil
            = spaces ind ++ renderJF (g + 1) ind v from rfl]
      rw [List.append_assoc, skipJWs_append_ws (spaces ind) _ (spaces_ws ind), hct,
        List.cons_append, skipJWs_cons_not c _ hw]
  | cons v2 tl2 =>
      have hEq : skipJWs (renderItemsF (g + 1 + 1) ind v (.cons v2 tl2) ++ T)
          = c :: (t ++ ((',' :: '\n' :: renderItemsF (g + 1) ind v2 tl2) ++ T)) := by
        rw [show renderItemsF (g + 1 + 1) ind v (.cons v2 tl2)
              = (spaces ind ++ renderJF (g + 1) ind v)
                ++ (',' :: '\n' :: renderItemsF (g + 1) ind v2 tl2) from rfl]
        simp only [List.append_assoc]
        rw [skipJWs_append_ws (spaces ind) _ (spaces_ws ind), hct, List.cons_append,
          skipJWs_cons_not c _ hw]
      exact ⟨c, _, hEq, hw, h1, h2⟩

/-- After whitespace, a rendered field list starts with the key's opening
quote. -/
theorem renderFieldsF_skip (g ind : Nat) (k : String) (v : Json) (tl : JsonFields)
    (T : List Char) :
    ∃ t, skipJWs (renderFieldsF (g + 1) ind k v tl ++ T) = '"' :: t := by
  cases tl with
  | fnil =>
      have hEq : skipJWs (renderFieldsF (g + 1) ind k v .fnil ++ T)
          = '"' :: (k.data.foldr (fun c a => escapeChar c ++ a) ['"']
              ++ (':' :: ' ' :: (renderJF g ind v ++ T))) := by
        rw [show renderFieldsF (g + 1) ind k v .fnil
              = (spaces ind ++ renderString k) ++ (':' :: ' ' :: renderJF g ind v) from rfl]
        simp only [List.append_assoc, renderString, List.cons_append]
        rw [skipJWs_append_ws (spaces ind) _ (spaces_ws ind),
          skipJWs_cons_not '"' _ (by decide)]
      exact ⟨_, hEq⟩
  | fcons k2 v2 tl2 =>
      have hEq : skipJWs (renderFieldsF (g + 1) ind k v (.fcons k2 v2 tl2) ++ T)
          = '"' :: (k.data.foldr (fun c a => escapeChar c ++ a) ['"']
              ++ (':' :: ' ' :: (renderJF g ind v
                ++ (',' :: '\n' :: (renderFieldsF g ind k2 v2 tl2 ++ T))))) := by
        rw [show renderFieldsF (g + 1) ind k v (.fcons k2 v2 tl2)
              = ((spaces ind ++ renderString k) ++ (':' :: ' ' :: renderJF g ind v))
                ++ (',' :: '\n' :: renderFieldsF g ind k2 v2 tl2) from rfl]
        simp only [List.append_assoc, renderString, List.cons_append]
        rw [skipJWs_append_ws (spaces ind) _ (spaces_ws ind),
          skipJWs_cons_not '"' _ (by decide)]
      exact ⟨_, hEq⟩

/-- Length bound for the renderer on the fuel-independent shapes (all
values of node count at most two render this way at any fuel). -/
theorem renderJF_len_small (g ind : Nat) (j : Json) (hsmall : Json.count j ≤ 2) :
    Json.count j ≤ (renderJF (g + 1) ind j).length := by
  cases j with
  | null =>
      rw [show renderJF (g + 1) ind .null = "null".data from rfl]
      decide
  | bool b =>
      cases b with
      | false =>
          rw [show renderJF (g + 1) ind (.bool false) = "false".data from rfl]
          decide
      | true =>
          rw [show renderJF (g + 1) ind (.bool true) = "true".data from rfl]
          decide
  | num n =>
      rw [show renderJF (g + 1) ind (.num n) = (intToStr n).data from rfl]
      simp only [Json.count]
      by_cases hneg : n < 0
      · have hdata : (intToStr n).data = '-' :: natDigits ((-n).toNat + 1) (-n).toNat := by
          simp [intToStr, hneg]
        rw [hdata]
        simp only [List.length_cons]
        omega
      · have hdata : (intToStr n).data = natDigits (n.toNat + 1) n.toNat := by
          simp [intToStr, hneg]
        obtain ⟨hne, _, _⟩ := natDigits_spec n.toNat (n.toNat + 1) (Nat.lt_succ_self _)
        rw [hdata]
        cases hnd : natDigits (n.toNat + 1) n.toNat with
        | nil => exact absurd hnd hne
        | cons a b => simp only [List.length_cons]; omega
  | str s =>
      rw [show renderJF (g + 1) ind (.str s) = renderString s from rfl]
      simp only [Json.count, renderString, List.length_cons]
      omega
  | arr xs =>
      cases xs with
      | nil =>
          rw [show renderJF (g + 1) ind (.arr .nil) = "[]".data from rfl]
          decide
      | cons v tl =>
          exfalso
          have hp1 := json_count_pos v
          have hp2 := jsonList_count_pos tl
          simp only [Json.count, JsonList.count] at hsmall
          omega
  | obj fs =>
      cases fs with
      | fnil =>
          rw [show renderJF (g + 1) ind (.obj .fnil) = "\x7b\x7d".data from rfl]
          decide
      | fcons k v tl =>
          exfalso
          have hp1 := json_count_pos v
          have hp2 := jsonFields_count_pos tl
          simp only [Json.count, JsonFields.count] at hsmall
          omega

/-- Length bound for the renderer, by induction on the rendering fuel:
values, item lists and field lists simultaneously. -/
theorem render_len_all (g : Nat) :
    (∀ j ind, Json.count j ≤ g + 1 → Json.count j ≤ (renderJF (g + 1) ind j).length) ∧
    (∀ v tl ind, Json.count v + JsonList.count tl ≤ g + 1 →
      Json.count v + JsonList.count tl ≤ (renderItemsF (g + 1) ind v tl).length + 1) ∧
    (∀ k v tl ind, Json.count v + JsonFields.count tl ≤ g + 1 →
      Json.count v + JsonFields.count tl ≤ (renderFieldsF (g + 1) ind k v tl).length + 1) := by
  induction g with
  | zero =>
      refine ⟨?_, ?_, ?_⟩
      · intro j ind hR
        exact renderJF_len_small 0 ind j (by omega)
      · intro v tl ind hR
        exfalso
        have hp1 := json_count_pos v
        have hp2 := jsonList_count_pos tl
        omega
      · intro k v tl ind hR
        exfalso
        have hp1 := json_count_pos v
        have hp2 := jsonFields_count_pos tl
        omega
  | succ g0 ih =>
      obtain ⟨ihJ, ihI, ihF⟩ := ih
      refine ⟨?_, ?_, ?_⟩
      · intro j ind hR
        cases j with
        | null => exact renderJF_len_small (g0 + 1) ind .null (by decide)
        | bool b => exact renderJF_len_small (g0 + 1) ind (.bool b) (by cases b <;> decide)
        | num n => exact renderJF_len_small (g0 + 1) ind (.num n) (by simp [Json.count])
        | str s => exact renderJF_len_small (g0 + 1) ind (.str s) (by simp [Json.count])
        | arr xs =>
            cases xs with
            | nil => exact renderJF_len_small (g0 + 1) ind (.arr .nil) (by decide)
            | cons v tl =>
                simp only [Json.count, JsonList.count] at hR ⊢
                have hp1 := json_count_pos v
                have hp2 := jsonList_count_pos tl
                have hi := ihI v tl (ind + 2) (by omega)
                rw [show renderJF (g0 + 1 + 1) ind (.arr (.cons v tl))
                      = '[' :: '\n' :: ((renderItemsF (g0 + 1) (ind + 2) v tl
                          ++ ('\n' :: spaces ind)) ++ [']']) from rfl]
                simp only [List.length_cons, List.length_append]
                omega
        | obj fs =>
            cases fs with
            | fnil => exact renderJF_len_small (g0 + 1) ind (.obj .fnil) (by decide)
            | fcons k v tl =>
                simp only [Json.count, JsonFields.count] at hR ⊢
                have hp1 := json_count_pos v
                have hp2 := jsonFields_count_pos tl
                have hi := ihF k v tl (ind + 2) (by omega)
                rw [show renderJF (g0 + 1 + 1) ind (.obj (.fcons k v tl))
                      = '{' :: '\n' :: ((renderFieldsF (g0 + 1) (ind + 2) k v tl
                          ++ ('\n' :: spaces ind)) ++ ['\x7d']) from rfl]
                simp only [List.length_cons, List.length_append]
                omega
      · intro v tl ind hR
        cases tl with
        | nil =>
            simp only [JsonList.count] at hR ⊢
            have hp1 := json_count_pos v
            have hv := ihJ v ind (by omega)
            rw [show renderItemsF (g0 + 1 + 1) ind v .nil
                  = spaces ind ++ renderJF (g0 + 1) ind v from rfl]
            simp only [List.length_append]
            omega
        | cons v2 tl2 =>
            simp only [JsonList.count] at hR ⊢
            have hp1 := json_count_pos v
            have hp2 := json_count_pos v2
            have hp3 := jsonList_count_pos tl2
            have hv := ihJ v ind (by omega)
            have hi := ihI v2 tl2 ind (by omega)
            rw [show renderItemsF (g0 + 1 + 1) ind v (.cons v2 tl2)
                  = (spaces ind ++ renderJF (g0 + 1) ind v)
                    ++ (',' :: '\n' :: renderItemsF (g0 + 1) ind v2 tl2) from rfl]
            simp only [List.length_append, List.length_cons]
            omega
      · intro k v tl ind hR
        cases tl with
        | fnil =>
            simp only [JsonFields.count] at hR ⊢
            have hp1 := json_count_pos v
            have hv := ihJ v ind (by omega)
            rw [show renderFieldsF (g0 + 1 + 1) ind k v .fnil
                  = (spaces ind ++ renderString k)
                    ++ (':' :: ' ' :: renderJF (g0 + 1) ind v) from rfl]
            simp only [List.length_append, List.length_cons]
            omega
        | fcons k2 v2 tl2 =>
            simp only [JsonFields.count] at hR ⊢
            have hp1 := json_count_pos v
            have hp2 := json_count_pos v2
            have hp3 := jsonFields_count_pos tl2
            have hv := ihJ v ind (by omega)
            have hi := ihF k2 v2 tl2 ind (by omega)
            rw [show renderFieldsF (g0 + 1 + 1) ind k v (.fcons k2 v2 tl2)
                  = ((spaces ind ++ renderString k)
                      ++ (':' :: ' ' :: renderJF (g0 + 1) ind v))
                    ++ (',' :: '\n' :: renderFieldsF (g0 + 1) ind k2 v2 tl2) from rfl]
            simp only [List.length_append, List.length_cons]
            omega

/-- The rendering of a value is at least as long as its node count. -/
theorem renderJF_len (j : Json) (g ind : Nat) (hR : Json.count j ≤ g + 1) :
    Json.count j ≤ (renderJF (g + 1) ind j).length :=
  (render_len_all g).1 j ind hR

/-- `skipJWs` drops a whitespace head. -/
theorem skipJWs_cons_ws (c : Char) (cs : List Char) (h : isJWs c = true) :
    skipJWs (c :: cs) = skipJWs cs := by
  simp [skipJWs, List.dropWhile_cons, h]

/-- `skipJWs` over two whitespace runs and a solid head. -/
theorem skipJWs_pre2 (p1 p2 : List Char) (c : Char) (X : List Char)
    (h1 : ∀ a ∈ p1, isJWs a = true) (h2 : ∀ a ∈ p2, isJWs a = true)
    (hc : isJWs c = false) :
    skipJWs (p1 ++ (p2 ++ (c :: X))) = c :: X := by
  rw [skipJWs_append_ws p1 _ h1, skipJWs_append_ws p2 _ h2, skipJWs_cons_not c _ hc]

/-- `parseJ` ignores a single leading whitespace character. -/
theorem parseJ_ws1 (f : Nat) (c : Char) (cs : List Char) (h : isJWs c = true) :
    parseJ (f + 1) (c :: cs) = parseJ (f + 1) cs := by
  unfold parseJ
  rw [skipJWs_cons_ws c cs h]

/-- One `parseJ` step on an opening quote. -/
theorem parseJ_quote_step (f : Nat) (r : List Char) :
    parseJ (f + 1) ('"' :: r)
      = match parseStringBody (r.length + 1) r [] with
        | some (s, r2) => some (.str s, r2)
        | none => none := rfl

/-- One `parseJ` step on an opening bracket. -/
theorem parseJ_bracket_step (f : Nat) (r : List Char) :
    parseJ (f + 1) ('[' :: r)
      = (if headIs ']' (skipJWs r) then some (.arr .nil, (skipJWs r).drop 1)
         else match parseItems f r with
              | some (xs, r2) => some (.arr xs, r2)
              | none => none) := rfl

/-- One `parseJ` step on an opening brace. -/
theorem parseJ_brace_step (f : Nat) (r : List Char) :
    parseJ (f + 1) ('{' :: r)
      = (if headIs '\x7d' (skipJWs r) then some (.obj .fnil, (skipJWs r).drop 1)
         else match parseFields f r with
              | some (fs, r2) => some (.obj fs, r2)
              | none => none) := rfl

/-- One `parseItems` step. -/
theorem parseItems_step (f : Nat) (cs : List Char) :
    parseItems (f + 1) cs
      = match parseJ f cs with
        | some (v, r) =>
            (match skipJWs r with
             | ',' :: r2 =>
                 (match parseItems f r2 with
                  | some (tl, r3) => some (.cons v tl, r3)
                  | none => none)
             | ']' :: r2 => some (.cons v .nil, r2)
             | _ => none)
        | none => none := rfl

/-- One `parseFields` step. -/
theorem parseFields_step (f : Nat) (cs : List Char) :
    parseFields (f + 1) cs
      = match skipJWs cs with
        | '"' :: r =>
            (match parseStringBody (r.length + 1) r [] with
             | some (k, r1) =>
                 (match skipJWs r1 with
                  | ':' :: r2 =>
                      (match parseJ f r2 with
                       | some (v, r3) =>
                           (match skipJWs r3 with
                            | ',' :: r4 =>
                                (match parseFields f r4 with
                                 | some (tl, r5) => some (.fcons k v tl, r5)
                                 | none => none)
                            | '\x7d' :: r4 => some (.fcons k v .fnil, r4)
                            | _ => none)
                       | none => none)
                  | _ => none)
             | none => none)
        | _ => none := rfl


/-- Round trip of the JSON renderer and parser, by induction on the parse
fuel: values, item lists and field lists simultaneously. -/
theorem parse_render_all (f : Nat) :
    (∀ j ind g rest, Json.count j ≤ g + 1 → Json.count j ≤ f →
      (∀ c, rest.head? = some c → c.isDigit = false) →
      parseJ f (renderJF (g + 1) ind j ++ rest) = some (j, rest)) ∧
    (∀ v tl ind g preI wsB rest,
      (∀ c ∈ preI, isJWs c = true) → (∀ c ∈ wsB, isJWs c = true) →
      Json.count v + JsonList.count tl ≤ g + 1 →
      Json.count v + JsonList.count tl + 1 ≤ f →
      parseItems f (preI ++ (renderItemsF (g + 1) ind v tl ++ (wsB ++ (']' :: rest))))
        = some (.cons v tl, rest)) ∧
    (∀ k v tl ind g preF wsB rest,
      (∀ c ∈ preF, isJWs c = true) → (∀ c ∈ wsB, isJWs c = true) →
      Json.count v + JsonFields.count tl ≤ g + 1 →
      Json.count v + JsonFields.count tl + 1 ≤ f →
      parseFields f (preF ++ (renderFieldsF (g + 1) ind k v tl ++ (wsB ++ ('\x7d' :: rest))))
        = some (.fcons k v tl, rest)) := by
  induction f with
  | zero =>
      refine ⟨?_, ?_, ?_⟩
      · intro j ind g rest hRg hPf hrest
        exfalso
        have := json_count_pos j
        omega
      · intro v tl ind g preI wsB rest hpre hws hRg hPf
        exfalso
        have := json_count_pos v
        have := jsonList_count_pos tl
        omega
      · intro k v tl ind g preF wsB rest hpre hws hRg hPf
        exfalso
        have := json_count_pos v
        have := jsonFields_count_pos tl
        omega
  | succ f0 ih =>
      obtain ⟨ihJ, ihI, ihF⟩ := ih
      refine ⟨?_, ?_, ?_⟩
      · intro j ind g rest hRg hPf hrest
        cases j with
        | null => rfl
        | bool b => cases b <;> rfl
        | num n =>
            rw [show renderJF (g + 1) ind (.num n) = (intToStr n).data from rfl]
            have hnum : parseJNum ((intToStr n).data ++ rest) = some (n, rest) :=
              parseJNum_intToStr n rest hrest
            by_cases hneg : n < 0
            · have hdata : (intToStr n).data
                  = '-' :: natDigits ((-n).toNat + 1) (-n).toNat := by
                simp [intToStr, hneg]
              rw [hdata, List.cons_append,
                parseJ_num_step f0 '-' _ (by decide) (by decide) (by decide) (by decide)
                  (by decide) (by decide) (by decide),
                ← List.cons_append, ← hdata]
              simp only [hnum]
            · have hdata : (intToStr n).data = natDigits (n.toNat + 1) n.toNat := by
                simp [intToStr, hneg]
              obtain ⟨hne, hdigs, _⟩ :=
                natDigits_spec n.toNat (n.toNat + 1) (Nat.lt_succ_self _)
              obtain ⟨d, ds, hds⟩ : ∃ d ds, natDigits (n.toNat + 1) n.toNat = d :: ds := by
                cases hnd : natDigits (n.toNat + 1) n.toNat with
                | nil => exact absurd hnd hne
                | cons a b => exact ⟨a, b, rfl⟩
              have hd : d.isDigit = true :=
                hdigs d (by rw [hds]; exact List.mem_cons_self d ds)
              obtain ⟨hw, _, _, hdn, hdt, hdf, hdq, hdb, hdo⟩ := digit_head_props d hd
              rw [hdata, hds, List.cons_append,
                parseJ_num_step f0 d _ hw hdn hdt hdf hdq hdb hdo,
                ← List.cons_append, ← hds, ← hdata]
              simp only [hnum]
        | str s =>
            rw [show renderJF (g + 1) ind (.str s) = renderString s from rfl]
            rw [renderString, List.cons_append, escFold_append]
            simp only [List.cons_append, List.nil_append]
            rw [parseJ_quote_step f0]
            have hps := parseStringBody_escFold s.data [] rest
              ((s.data.foldr (fun c a => escapeChar c ++ a) ('"' :: rest)).length + 1)
              (by have := escFold_len s.data rest; omega)
            simp only [hps, List.reverse_nil, List.nil_append]
        | arr xs =>
            cases xs with
            | nil => rfl
            | cons v tl =>
                simp only [Json.count, JsonList.count] at hRg hPf
                have hp1 := json_count_pos v
                have hp2 := jsonList_count_pos tl
                obtain ⟨g1, rfl⟩ : ∃ g1, g = g1 + 1 + 1 := ⟨g - 2, by omega⟩
                rw [show renderJF (g1 + 1 + 1 + 1) ind (.arr (.cons v tl))
                      = '[' :: '\n' :: ((renderItemsF (g1 + 1 + 1) (ind + 2) v tl
                          ++ ('\n' :: spaces ind)) ++ [']']) from rfl]
                simp only [List.cons_append, List.nil_append, List.append_assoc]
                rw [parseJ_bracket_step f0]
                obtain ⟨c0, t0, hct, hw0, hne1, hne2⟩ :=
                  renderItemsF_skip g1 (ind + 2) v tl
                    ('\n' :: (spaces ind ++ (']' :: rest)))
                have hskip : skipJWs ('\n' :: (renderItemsF (g1 + 1 + 1) (ind + 2) v tl
                    ++ ('\n' :: (spaces ind ++ (']' :: rest))))) = c0 :: t0 := by
                  rw [skipJWs_cons_ws '\n' _ (by decide), hct]
                have hcond : headIs ']' (skipJWs ('\n' ::
                    (renderItemsF (g1 + 1 + 1) (ind + 2) v tl
                      ++ ('\n' :: (spaces ind ++ (']' :: rest)))))) = false := by
                  rw [hskip]
                  simp [headIs, hne1]
                simp only [hcond, Bool.false_eq_true, if_false]
                have hI := ihI v tl (ind + 2) (g1 + 1) ['\n'] ('\n' :: spaces ind) rest
                  (by intro c hc; simp only [List.mem_singleton] at hc; rw [hc]; decide)
                  (by
                    intro c hc
                    simp only [List.mem_cons] at hc
                    rcases hc with hc | hc
                    · rw [hc]; decide
                    · exact spaces_ws ind c hc)
                  (by omega) (by omega)
                simp only [List.cons_append, List.nil_append, List.append_assoc] at hI
                rw [hI]
        | obj fs =>
            cases fs with
            | fnil => rfl
            | fcons k v tl =>
                simp only [Json.count, JsonFields.count] at hRg hPf
                have hp1 := json_count_pos v
                have hp2 := jsonFields_count_pos tl
                obtain ⟨g0, rfl⟩ : ∃ g0, g = g0 + 1 := ⟨g - 1, by omega⟩
                rw [show renderJF (g0 + 1 + 1) ind (.obj (.fcons k v tl))
                      = '{' :: '\n' :: ((renderFieldsF (g0 + 1) (ind + 2) k v tl
                          ++ ('\n' :: spaces ind)) ++ ['\x7d']) from rfl]
                simp only [List.cons_append, List.nil_append, List.append_assoc]
                rw [parseJ_brace_step f0]
                obtain ⟨t0, hct⟩ :=
                  renderFieldsF_skip g0 (ind + 2) k v tl
                    ('\n' :: (spaces ind ++ ('\x7d' :: rest)))
                have hskip : skipJWs ('\n' :: (renderFieldsF (g0 + 1) (ind + 2) k v tl
                    ++ ('\n' :: (spaces ind ++ ('\x7d' :: rest))))) = '"' :: t0 := by
                  rw [skipJWs_cons_ws '\n' _ (by decide), hct]
                have hcond : headIs '\x7d' (skipJWs ('\n' ::
                    (renderFieldsF (g0 + 1) (ind + 2) k v tl
                      ++ ('\n' :: (spaces ind ++ ('\x7d' :: rest)))))) = false := by
                  rw [hskip]
                  simp [headIs]
                simp only [hcond, Bool.false_eq_true, if_false]
                have hF := ihF k v tl (ind + 2) g0 ['\n'] ('\n' :: spaces ind) rest
                  (by intro c hc; simp only [List.mem_singleton] at hc; rw [hc]; decide)
                  (by
                    intro c hc
                    simp only [List.mem_cons] at hc
                    rcases hc with hc | hc
                    · rw [hc]; decide
                    · exact spaces_ws ind c hc)
                  (by omega) (by omega)
                simp only [List.cons_append, List.nil_append, List.append_assoc] at hF
                simp only [hF]
      · intro v tl ind g preI wsB rest hpre hws hRg hPf
        cases tl with
        | nil =>
            simp only [JsonList.count] at hRg hPf
            have hp1 := json_count_pos v
            obtain ⟨g0, rfl⟩ : ∃ g0, g = g0 + 1 := ⟨g - 1, by omega⟩
            obtain ⟨f1, rfl⟩ : ∃ f1, f0 = f1 + 1 := ⟨f0 - 1, by omega⟩
            rw [show renderItemsF (g0 + 1 + 1) ind v .nil
                  = spaces ind ++ renderJF (g0 + 1) ind v from rfl]
            simp only [List.append_assoc]
            rw [parseItems_step (f1 + 1)]
            rw [parseJ_ws (f1 : Nat) preI _ hpre, parseJ_ws (f1 : Nat) (spaces ind) _ (spaces_ws ind)]
            have hA := ihJ v ind g0 (wsB ++ (']' :: rest)) (by omega) (by omega)
              (head_ws_append wsB ']' rest hws (by decide))
            have hs1 : skipJWs (wsB ++ (']' :: rest)) = ']' :: rest := by
              rw [skipJWs_append_ws wsB _ hws, skipJWs_cons_not ']' _ (by decide)]
            rw [hA]
            simp only [hs1]
        | cons v2 tl2 =>
            simp only [JsonList.count] at hRg hPf
            have hp1 := json_count_pos v
            have hp2 := json_count_pos v2
            have hp3 := jsonList_count_pos tl2
            obtain ⟨g0, rfl⟩ : ∃ g0, g = g0 + 1 := ⟨g - 1, by omega⟩
            obtain ⟨f1, rfl⟩ : ∃ f1, f0 = f1 + 1 := ⟨f0 - 1, by omega⟩
            rw [show renderItemsF (g0 + 1 + 1) ind v (.cons v2 tl2)
                  = (spaces ind ++ renderJF (g0 + 1) ind v)
                    ++ (',' :: '\n' :: renderItemsF (g0 + 1) ind v2 tl2) from rfl]
            simp only [List.cons_append, List.append_assoc]
            rw [parseItems_step (f1 + 1)]
            rw [parseJ_ws (f1 : Nat) preI _ hpre, parseJ_ws (f1 : Nat) (spaces ind) _ (spaces_ws ind)]
            have hA := ihJ v ind g0
              (',' :: ('\n' :: (renderItemsF (g0 + 1) ind v2 tl2 ++ (wsB ++ (']' :: rest)))))
              (by omega) (by omega)
              (by intro c hc; simp only [List.head?_cons, Option.some.injEq] at hc
                  rw [← hc]; decide)
            have hs1 : skipJWs
                (',' :: ('\n' :: (renderItemsF (g0 + 1) ind v2 tl2 ++ (wsB ++ (']' :: rest)))))
                = ',' :: ('\n' :: (renderItemsF (g0 + 1) ind v2 tl2 ++ (wsB ++ (']' :: rest)))) :=
              skipJWs_cons_not ',' _ (by decide)
            rw [hA]
            simp only [hs1]
            have hI := ihI v2 tl2 ind g0 ['\n'] wsB rest
              (by intro c hc; simp only [List.mem_singleton] at hc; rw [hc]; decide)
              hws (by omega) (by omega)
            simp only [List.cons_append, List.nil_append, List.append_assoc] at hI
            simp only [hI]
      · intro k v tl ind g preF wsB rest hpre hws hRg hPf
        cases tl with
        | fnil =>
            simp only [JsonFields.count] at hRg hPf
            have hp1 := json_count_pos v
            obtain ⟨g0, rfl⟩ : ∃ g0, g = g0 + 1 := ⟨g - 1, by omega⟩
            obtain ⟨f1, rfl⟩ : ∃ f1, f0 = f1 + 1 := ⟨f0 - 1, by omega⟩
            rw [show renderFieldsF (g0 + 1 + 1) ind k v .fnil
                  = (spaces ind ++ renderString k)
                    ++ (':' :: ' ' :: renderJF (g0 + 1) ind v) from rfl]
            simp only [renderString, List.cons_append, List.append_assoc]
            rw [parseFields_step (f1 + 1)]
            have hs0 := skipJWs_pre2 preF (spaces ind) '"'
              (k.data.foldr (fun c a => escapeChar c ++ a) ['"']
                ++ (':' :: (' ' :: (renderJF (g0 + 1) ind v ++ (wsB ++ ('\x7d' :: rest))))))
              hpre (spaces_ws ind) (by decide)
            simp only [List.append_assoc] at hs0
            simp only [hs0]
            rw [escFold_append]
            simp only [List.cons_append, List.nil_append]
            have hps := parseStringBody_escFold k.data []
              (':' :: (' ' :: (renderJF (g0 + 1) ind v ++ (wsB ++ ('\x7d' :: rest)))))
              ((k.data.foldr (fun c a => escapeChar c ++ a)
                ('"' :: (':' :: (' ' :: (renderJF (g0 + 1) ind v
                  ++ (wsB ++ ('\x7d' :: rest))))))).length + 1)
              (by
                have := escFold_len k.data
                  (':' :: (' ' :: (renderJF (g0 + 1) ind v ++ (wsB ++ ('\x7d' :: rest)))))
                omega)
            simp only [hps, List.reverse_nil, List.nil_append]
            have hs2 : skipJWs (':' :: (' ' :: (renderJF (g0 + 1) ind v
                ++ (wsB ++ ('\x7d' :: rest)))))
                = ':' :: (' ' :: (renderJF (g0 + 1) ind v ++ (wsB ++ ('\x7d' :: rest)))) :=
              skipJWs_cons_not ':' _ (by decide)
            simp only [hs2]
            rw [parseJ_ws1 f1 ' ' _ (by decide)]
            have hA := ihJ v ind g0 (wsB ++ ('\x7d' :: rest)) (by omega) (by omega)
              (head_ws_append wsB '\x7d' rest hws (by decide))
            rw [hA]
            have hs3 : skipJWs (wsB ++ ('\x7d' :: rest)) = '\x7d' :: rest := by
              rw [skipJWs_append_ws wsB _ hws, skipJWs_cons_not '\x7d' _ (by decide)]
            simp only [hs3]
        | fcons k2 v2 tl2 =>
            simp only [JsonFields.count] at hRg hPf
            have hp1 := json_count_pos v
            have hp2 := json_count_pos v2
            have hp3 := jsonFields_count_pos tl2
            obtain ⟨g0, rfl⟩ : ∃ g0, g = g0 + 1 := ⟨g - 1, by omega⟩
            obtain ⟨f1, rfl⟩ : ∃ f1, f0 = f1 + 1 := ⟨f0 - 1, by omega⟩
            rw [show renderFieldsF (g0 + 1 + 1) ind k v (.fcons k2 v2 tl2)
                  = ((spaces ind ++ renderString k)
                      ++ (':' :: ' ' :: renderJF (g0 + 1) ind v))
                    ++ (',' :: '\n' :: renderFieldsF (g0 + 1) ind k2 v2 tl2) from rfl]
            simp only [renderString, List.cons_append, List.append_assoc]
            rw [parseFields_step (f1 + 1)]
            have hs0 := skipJWs_pre2 preF (spaces ind) '"'
              (k.data.foldr (fun c a => escapeChar c ++ a) ['"']
                ++ (':' :: (' ' :: (renderJF (g0 + 1) ind v
                  ++ (',' :: ('\n' :: (renderFieldsF (g0 + 1) ind k2 v2 tl2
                    ++ (wsB ++ ('\x7d' :: rest)))))))))
              hpre (spaces_ws ind) (by decide)
            simp only [List.append_assoc] at hs0
            simp only [hs0]
            rw [escFold_append]
            simp only [List.cons_append, List.nil_append]
            have hps := parseStringBody_escFold k.data []
              (':' :: (' ' :: (renderJF (g0 + 1) ind v
                ++ (',' :: ('\n' :: (renderFieldsF (g0 + 1) ind k2 v2 tl2
                  ++ (wsB ++ ('\x7d' :: rest))))))))
              ((k.data.foldr (fun c a => escapeChar c ++ a)
                ('"' :: (':' :: (' ' :: (renderJF (g0 + 1) ind v
                  ++ (',' :: ('\n' :: (renderFieldsF (g0 + 1) ind k2 v2 tl2
                    ++ (wsB ++ ('\x7d' :: rest)))))))))).length + 1)
              (by
                have := escFold_len k.data
                  (':' :: (' ' :: (renderJF (g0 + 1) ind v
                    ++ (',' :: ('\n' :: (renderFieldsF (g0 + 1) ind k2 v2 tl2
                      ++ (wsB ++ ('\x7d' :: rest))))))))
                omega)
            simp only [hps, List.reverse_nil, List.nil_append]
            have hs2 := skipJWs_cons_not ':'
              (' ' :: (renderJF (g0 + 1) ind v
                ++ (',' :: ('\n' :: (renderFieldsF (g0 + 1) ind k2 v2 tl2
                  ++ (wsB ++ ('\x7d' :: rest))))))) (by decide)
            simp only [hs2]
            rw [parseJ_ws1 f1 ' ' _ (by decide)]
            have hA := ihJ v ind g0
              (',' :: ('\n' :: (renderFieldsF (g0 + 1) ind k2 v2 tl2
                ++ (wsB ++ ('\x7d' :: rest)))))
              (by omega) (by omega)
              (by intro c hc; simp only [List.head?_cons, Option.some.injEq] at hc
                  rw [← hc]; decide)
            rw [hA]
            have hs3 := skipJWs_cons_not ','
              ('\n' :: (renderFieldsF (g0 + 1) ind k2 v2 tl2 ++ (wsB ++ ('\x7d' :: rest))))
              (by decide)
            simp only [hs3]
            have hF := ihF k2 v2 tl2 ind g0 ['\n'] wsB rest
              (by intro c hc; simp only [List.mem_singleton] at hc; rw [hc]; decide)
              hws (by omega) (by omega)
            simp only [List.cons_append, List.nil_append, List.append_assoc] at hF
            simp only [hF]

/-- `jsonParse` inverts the two-space pretty renderer on every value. -/
theorem jsonParse_render (j : Json) : jsonParse (String.mk (render 0 j)) = some j := by
  have hcp := json_count_pos j
  obtain ⟨g0, hg⟩ : ∃ g0, Json.count j = g0 + 1 := ⟨Json.count j - 1, by omega⟩
  have hlen : Json.count j ≤ (render 0 j).length := by
    have hlb := renderJF_len j g0 0 (by omega)
    rw [hg] at hlb
    rw [render, hg]
    exact hlb
  have hA := (parse_render_all ((render 0 j).length + 1)).1 j 0 g0 []
    (by omega) (by omega) (by intro c hc; simp at hc)
  rw [List.append_nil] at hA
  have hRr : render 0 j = renderJF (g0 + 1) 0 j := by rw [render, hg]
  unfold jsonParse
  rw [show (String.mk (render 0 j)).data = render 0 j from rfl]
  rw [hRr] at hA ⊢
  simp only [hA]
  rfl

/-- C9: importing the string produced by exporting a circuit yields exactly
the exported structure — its `parts` and `connections` fields are the
image lists of the components and wires, element for element and in
order — while importing a malformed JSON string yields no structure and
reports exactly one serial error event carrying the `[Error]` prefix. -/
theorem circuit_export_import_roundtrip
    (components : List Component) (wires : List Wire)
    (es : EngineSerial) (bad : String) (hbad : jsonParse bad = none) :
    (importCircuit es (exportCircuit components wires)).1
        = some (circuitJson components wires) ∧
    getField (circuitJson components wires) "parts"
        = some (.arr (listToJsonList (components.map partJson))) ∧
    getField (circuitJson components wires) "connections"
        = some (.arr (listToJsonList (wires.map connJson))) ∧
    importCircuit es bad
        = (none, { es with buffer := "" },
           [{ text := es.buffer ++ ("[Error] Invalid circuit file: " ++ importErrMsg),
              category := "error",
              elapsed := Q.ofNat (es.now - es.startTime) / Q.ofNat 1000 }]) := by
  refine ⟨?_, rfl, rfl, ?_⟩
  · have hjp : jsonParse (exportCircuit components wires)
        = some (circuitJson components wires) := by
      rw [show exportCircuit components wires
            = String.mk (render 0 (circuitJson components wires)) from rfl]
      exact jsonParse_render (circuitJson components wires)
    unfold importCircuit
    rw [hjp]
  · unfold importCircuit
    rw [hbad]
    rfl

/-- Concrete circuit round trip: one LED part, one wire, and the malformed
file consisting of a lone opening brace. -/
theorem circuit_export_import_roundtrip_witness :
    jsonParse "\x7b" = none ∧
    ((importCircuit ⟨"", 0, 5000, 1⟩
        (exportCircuit
          [⟨.str "led", .str "led1", .null, .obj (.fcons "x" (.num 5) .fnil)⟩]
          [⟨.str "led1:A", .str "esp:D2", .str "green"⟩])).1
      = some (circuitJson
          [⟨.str "led", .str "led1", .null, .obj (.fcons "x" (.num 5) .fnil)⟩]
          [⟨.str "led1:A", .str "esp:D2", .str "green"⟩]) ∧
    getField (circuitJson
          [⟨.str "led", .str "led1", .null, .obj (.fcons "x" (.num 5) .fnil)⟩]
          [⟨.str "led1:A", .str "esp:D2", .str "green"⟩]) "parts"
      = some (.arr (listToJsonList
          ([⟨.str "led", .str "led1", .null, .obj (.fcons "x" (.num 5) .fnil)⟩].map partJson))) ∧
    getField (circuitJson
          [⟨.str "led", .str "led1", .null, .obj (.fcons "x" (.num 5) .fnil)⟩]
          [⟨.str "led1:A", .str "esp:D2", .str "green"⟩]) "connections"
      = some (.arr (listToJsonList
          ([⟨.str "led1:A", .str "esp:D2", .str "green"⟩].map connJson))) ∧
    importCircuit ⟨"", 0, 5000, 1⟩ "\x7b"
      = (none, { buffer := "", startTime := 0, now := 5000, speed := 1 },
         [{ text := "" ++ ("[Error] Invalid circuit file: " ++ importErrMsg),
            category := "error",
            elapsed := Q.ofNat (5000 - 0) / Q.ofNat 1000 }])) :=
  ⟨rfl,
    circuit_export_import_roundtrip
      [⟨.str "led", .str "led1", .null, .obj (.fcons "x" (.num 5) .fnil)⟩]
      [⟨.str "led1:A", .str "esp:D2", .str "green"⟩]
      ⟨"", 0, 5000, 1⟩ "\x7b" rfl⟩

end ESP32Sim
